import Mathlib

/-!
Verification of the column-name normalization, name-resolution and
input-encoding layer of the ENEM score simulator (`src/app.py`).

The Python source is shallowly embedded: pure functions become Lean
functions, the pandas one-row DataFrame becomes an ordered association
list from column names to integer values, and the two module-level
diagnostic collectors (`_missing_cols`, `_suggestions`) become an
explicit `Diag` state threaded through the encoding functions.
-/

set_option maxRecDepth 4000

namespace Enem

/-- Lowercase ASCII letters and digits: the character class `[a-z0-9]`
kept unchanged by the substitution step of `normalizeStr`. -/
def isLowerAlnum (c : Char) : Bool :=
  (('a' ≤ c) && (c ≤ 'z')) || (('0' ≤ c) && (c ≤ '9'))

/-- Per-character model of `unicodedata.normalize("NFKD", s)` followed by
`s.encode("ascii", "ignore")`: an ASCII character is kept unchanged, an
accented Latin character occurring in this application's labels
decomposes to its ASCII base letter (its combining marks are non-ASCII
and are dropped by the `ignore` filter), and any other non-ASCII
character contributes nothing.  Canonical reordering of combining marks
never moves an ASCII character, so the ASCII projection of the NFKD form
is computed character by character. -/
def asciiFold (c : Char) : List Char :=
  if c.toNat < 128 then [c]
  else match c with
    | 'á' | 'à' | 'â' | 'ã' | 'ä' | 'Á' | 'À' | 'Â' | 'Ã' => ['a']
    | 'é' | 'è' | 'ê' | 'ë' | 'É' | 'Ê' => ['e']
    | 'í' | 'ì' | 'î' | 'ï' | 'Í' => ['i']
    | 'ó' | 'ò' | 'ô' | 'õ' | 'ö' | 'Ó' | 'Ô' | 'Õ' => ['o']
    | 'ú' | 'ù' | 'û' | 'ü' | 'Ú' => ['u']
    | 'ç' | 'Ç' => ['c']
    | 'ñ' | 'Ñ' => ['n']
    | 'ª' => ['a']
    | 'º' => ['o']
    | _ => []

/-- `asciiFold` applied across a string's characters. -/
def foldChars : List Char → List Char
  | [] => []
  | c :: cs => asciiFold c ++ foldChars cs

/-- `str.lower()` on the ASCII text remaining after the fold: uppercase
ASCII letters are shifted to lowercase, everything else is unchanged. -/
def pyLower (c : Char) : Char :=
  if ('A' ≤ c) && (c ≤ 'Z') then Char.ofNat (c.toNat + 32) else c

/-- One character of `re.sub(r"[^a-z0-9]+", "_", s)`: a character outside
`[a-z0-9]` becomes `_`.  Replacing every such character and then
collapsing runs of `_` (the following `re.sub(r"_+", "_", s)`) produces
exactly the run-wise substitution of the source. -/
def toUnderscore (c : Char) : Char :=
  if isLowerAlnum c then c else '_'

/-- Collapse every run of consecutive `_` characters to a single `_`.
The flag records whether the previously emitted character was `_`. -/
def collapseAux : Bool → List Char → List Char
  | _, [] => []
  | prevU, c :: cs =>
    if c = '_' then
      if prevU then collapseAux true cs else '_' :: collapseAux true cs
    else c :: collapseAux false cs

/-- Drop trailing `_` characters (the right half of `.strip("_")`). -/
def dropTrailingU (l : List Char) : List Char :=
  (l.reverse.dropWhile (fun c => c == '_')).reverse

/-- `.strip("_")`: drop leading and trailing `_` characters. -/
def stripU (l : List Char) : List Char :=
  dropTrailingU (l.dropWhile (fun c => c == '_'))

/-- The body of `normalize` on an actual string: NFKD + ASCII filter,
lowercase, substitution of non-`[a-z0-9]` runs by `_`, collapse of `_`
runs and strip of leading/trailing `_`. -/
def normalizeStr (s : String) : String :=
  ⟨stripU (collapseAux false (((foldChars s.data).map pyLower).map toUnderscore))⟩

/-- `normalize` from `src/app.py`, including its `if s is None` guard:
the absent input is modelled as `none` and yields `""`; every actual
string is processed by `normalizeStr`. -/
def normalize (s : Option String) : String :=
  match s with
  | none => ""
  | some s => normalizeStr s

/-! ### Python dictionaries as association lists

A Python `dict` keeps one value per key: assigning an existing key
overwrites its value in place, iteration order is first-insertion order.
We model a dict by the list of its insertions; `dictLookup` (last
insertion wins) and `dictKeys` (first occurrence order) recover the
dict's observable behavior. -/

/-- Value of key `k`: the most recent insertion with that key. -/
def dictLookup {α : Type} (m : List (String × α)) (k : String) : Option α :=
  (m.reverse.find? (fun p => p.1 == k)).map (fun p => p.2)

/-- Keys in first-occurrence order (`dict.keys()`). -/
def dictKeys {α : Type} : List (String × α) → List String
  | [] => []
  | p :: ps => p.1 :: (dictKeys ps).filter (fun k => !(k == p.1))

/-- `m[k] = v`: overwrite in place when `k` is present, append otherwise. -/
def dictSet {α : Type} (m : List (String × α)) (k : String) (v : α) :
    List (String × α) :=
  if m.any (fun p => p.1 == k) then
    m.map (fun p => if p.1 == k then (k, v) else p)
  else m ++ [(k, v)]

/-- `ACTUAL_MAP = {normalize(c): c for c in FEATURE_LIST}`, as the list of
insertions performed by the comprehension. -/
def ACTUAL_MAP (feature_list : List String) : List (String × String) :=
  feature_list.map (fun c => (normalizeStr c, c))

/-! ### `difflib.get_close_matches`

`resolve_col` falls back to `difflib.get_close_matches(norm, keys, n=3,
cutoff=0.6)`.  We reproduce `SequenceMatcher` with `isjunk=None` on the
short ASCII tokens involved (autojunk only affects sequences of length
at least 200, so the junk machinery is inert): `find_longest_match`
scans positions with the `j2len` dynamic programming dictionary, the
total number of matched characters follows the recursive matching-block
decomposition, and the similarity score is `2*M/T` as an exact
rational. -/

/-- Indices `j` with `b[j] = c`, ascending: the `b2j` occurrence lists. -/
def b2jIndices (b : List Char) (c : Char) : List Nat :=
  (b.enum.filter (fun p => p.2 == c)).map (fun p => p.1)

/-- Result of `find_longest_match`: leftmost longest matching block. -/
structure Best where
  besti : Nat
  bestj : Nat
  bestsize : Nat
deriving Repr

/-- Lookup in the small `Nat`-keyed dicts used by `find_longest_match`. -/
def natLookup (m : List (Nat × Nat)) (k : Nat) : Option Nat :=
  (m.find? (fun p => p.1 == k)).map (fun p => p.2)

/-- Inner loop of `find_longest_match`: walk the occurrence list of
`a[i]` in `b`, skipping `j < blo` and stopping at `j >= bhi`, extending
runs recorded in `j2len` and updating the best block. -/
def flmJ (i blo bhi : Nat) (j2len : List (Nat × Nat)) :
    List Nat → List (Nat × Nat) → Best → List (Nat × Nat) × Best
  | [], newj2len, best => (newj2len, best)
  | j :: js, newj2len, best =>
    if j < blo then flmJ i blo bhi j2len js newj2len best
    else if bhi ≤ j then (newj2len, best)
    else
      let k := (if j = 0 then 0 else (natLookup j2len (j - 1)).getD 0) + 1
      let newj2len := (j, k) :: newj2len
      let best := if best.bestsize < k then ⟨i + 1 - k, j + 1 - k, k⟩ else best
      flmJ i blo bhi j2len js newj2len best

/-- Outer loop of `find_longest_match` over `i` in `[alo, ahi)`. -/
def flmI (a b : List Char) (blo bhi : Nat) :
    List Nat → List (Nat × Nat) → Best → Best
  | [], _, best => best
  | i :: is, j2len, best =>
    let r := flmJ i blo bhi j2len (b2jIndices b (a.getD i ' ')) [] best
    flmI a b blo bhi is r.1 r.2

/-- `SequenceMatcher.find_longest_match` on `a[alo:ahi]` / `b[blo:bhi]`
(no junk, no popular elements for these short sequences). -/
def find_longest_match (a b : List Char) (alo ahi blo bhi : Nat) : Best :=
  flmI a b blo bhi (List.range' alo (ahi - alo)) [] ⟨alo, blo, 0⟩

/-- Total size of the matching blocks of `get_matching_blocks`: recurse
on the regions left and right of the longest match.  The fuel argument
dominates the recursion depth; `matchTotal` is always called with fuel
exceeding the combined interval widths. -/
def matchTotal (a b : List Char) : Nat → Nat → Nat → Nat → Nat → Nat
  | 0, _, _, _, _ => 0
  | fuel + 1, alo, ahi, blo, bhi =>
    let m := find_longest_match a b alo ahi blo bhi
    if m.bestsize = 0 then 0
    else
      m.bestsize + matchTotal a b fuel alo m.besti blo m.bestj
        + matchTotal a b fuel (m.besti + m.bestsize) ahi (m.bestj + m.bestsize) bhi

/-- `SequenceMatcher(None, a, b).ratio() = 2*M/T`, as an exact rational
(`T = 0` gives `1`). -/
def similarity (a b : List Char) : Rat :=
  let t := a.length + b.length
  if t = 0 then 1
  else (2 * (matchTotal a b (t + 1) 0 a.length 0 b.length) : Nat) / (t : Rat)

/-- Descending insertion by the pair order used by `heapq.nlargest` on
`(score, word)` tuples: higher score first, ties by the larger word. -/
def insertDesc (p : Rat × String) : List (Rat × String) → List (Rat × String)
  | [] => [p]
  | q :: qs =>
    if q.1 < p.1 ∨ (q.1 = p.1 ∧ q.2 < p.2) then p :: q :: qs
    else q :: insertDesc p qs

/-- Sort score/word pairs in the descending order of `_nlargest`. -/
def sortDesc : List (Rat × String) → List (Rat × String)
  | [] => []
  | p :: ps => insertDesc p (sortDesc ps)

/-- `difflib.get_close_matches(word, possibilities, n, cutoff)`: keep the
possibilities whose ratio against `word` reaches `cutoff` (the
`real_quick_ratio`/`quick_ratio` prefilters are upper bounds of `ratio`,
so the conjunction is equivalent to the final test), order by descending
`(score, word)` and return the first `n` words. -/
def get_close_matches (word : String) (possibilities : List String)
    (n : Nat) (cutoff : Rat) : List String :=
  let scored := possibilities.filterMap (fun x =>
    let r := similarity x.data word.data
    if cutoff ≤ r then some (r, x) else none)
  ((sortDesc scored).take n).map (fun p => p.2)

/-! ### Name resolution and its diagnostic state -/

/-- The module-level diagnostic collectors `_missing_cols` and
`_suggestions`, threaded explicitly. -/
structure Diag where
  missing : List String
  suggestions : List (String × List String)
deriving Repr

/-- `resolve_col`: normalize the logical name and look it up in
`ACTUAL_MAP`; on failure compute up to three fuzzy suggestions over the
normalized keys (cutoff 0.6 = 3/5) and record their canonical names
under the logical name when at least one exists, returning `None`. -/
def resolve_col (feature_list : List String) (col_name : String) (d : Diag) :
    Option String × Diag :=
  let am := ACTUAL_MAP feature_list
  let norm := normalizeStr col_name
  match dictLookup am norm with
  | some real => (some real, d)
  | none =>
    let close := get_close_matches norm (dictKeys am) 3 (3 / 5)
    if close.isEmpty then (none, d)
    else
      (none, { d with
        suggestions :=
          dictSet d.suggestions col_name
            (close.map (fun cn => (dictLookup am cn).getD "")) })

/-! ### Category lists and selection maps -/

def UF_LIST : List String :=
  ["AC", "AL", "AM", "AP", "BA", "CE", "DF", "ES", "GO", "MA", "MG", "MS", "MT",
   "PA", "PB", "PE", "PI", "PR", "RJ", "RN", "RO", "RR", "RS", "SC", "SE", "SP", "TO"]

def INSTR_LIST : List String :=
  ["Nunca estudou.",
   "Não completou a 4ª série/5º ano do Ensino Fundamental.",
   "Completou a 4ª série/5º ano, mas não completou a 8ª série/9º ano do Ensino Fundamental.",
   "Completou a 8ª série/9º ano do Ensino Fundamental, mas não completou o Ensino Médio.",
   "Completou o Ensino Médio, mas não completou a Faculdade.",
   "Completou a Faculdade, mas não completou a Pós-graduação.",
   "Completou a Pós-graduação."]

def PROF_LIST : List String :=
  ["Grupo 1: Agricultura/extrativismo/boia-fria etc.",
   "Grupo 2: Serviços gerais/comércio/auxiliares/operacionais.",
   "Grupo 3: Indústria/ofícios/operadores/motoristas.",
   "Grupo 4: Técnicos/professores (básico)/supervisão/autônomos/pequenos empresários.",
   "Grupo 5: Profissionais de nível superior/alta gestão/empresários médios e grandes."]

/-- `{txt: i+1 for i, txt in enumerate(lst)}`. -/
def enumMap (l : List String) : List (String × Nat) :=
  l.enum.map (fun p => (p.2, p.1 + 1))

def INSTR_MAP : List (String × Nat) := enumMap INSTR_LIST

def PROF_MAP : List (String × Nat) := enumMap PROF_LIST

/-- `map_nao_sei`: the "Não sei" selection yields `(0, 1)`; any other
selection yields its value in the map with flag `0`.  A selection absent
from the map raises `KeyError` in Python, modelled by `none`. -/
def map_nao_sei (selection : String) (mapping : List (String × Nat)) :
    Option (Nat × Nat) :=
  if selection = "Não sei" then some (0, 1)
  else match dictLookup mapping selection with
    | some v => some (v, 0)
    | none => none

/-! ### The one-row DataFrame and the encoder -/

/-- A one-row pandas DataFrame: ordered columns with an integer value
each. -/
abbrev Row := List (String × Int)

/-- `empty_row`: one row of zeros indexed by the feature list. -/
def empty_row (feature_list : List String) : Row :=
  feature_list.map (fun c => (c, 0))

/-- The value of column `c` (`0` when the column is absent, which never
happens for the columns the model reads). -/
def rowGet (row : Row) (c : String) : Int :=
  ((row.find? (fun p => p.1 == c)).map (fun p => p.2)).getD 0

/-- The column labels of a row, in order. -/
def rowCols (row : Row) : List String := row.map (fun p => p.1)

/-- `row[real] = val`: overwrite the value of an existing column. -/
def rowSet (row : Row) (c : String) (v : Int) : Row :=
  row.map (fun p => if p.1 == c then (c, v) else p)

/-- `set_if_exists`: resolve the logical name; write the value when the
resolved column exists among the row's columns, otherwise append the
logical name to `_missing_cols` and leave the row unchanged. -/
def set_if_exists (feature_list : List String) (col : String) (val : Int) :
    Row × Diag → Row × Diag
  | (row, d) =>
    match resolve_col feature_list col d with
    | (some real, d') =>
      if (rowCols row).contains real then (rowSet row real val, d')
      else (row, { d' with missing := d'.missing ++ [col] })
    | (none, d') => (row, { d' with missing := d'.missing ++ [col] })

/-- The `inputs` dict assembled by the submission handler. -/
structure Inputs where
  TP_FAIXA_ETARIA : Int
  Qtd_Residentes : Int
  Renda_Familiar_ord : Int
  TP_SEXO : String
  TP_ESCOLA : String
  UF : String
  TP_LINGUA : String
  TP_ESTADO_CIVIL : String
  TP_COR_RACA : String
  TP_NACIONALIDADE : String
  TP_ST_CONCLUSAO : String
  Instrucao_pai_ord : Int
  Instrucao_mae_ord : Int
  Prof_pai_ord : Int
  Prof_mae_ord : Int
  Instrucao_pai_ns : Int
  Instrucao_mae_ns : Int
  Prof_pai_ns : Int
  Prof_mae_ns : Int
  Internet_A : Int
  Internet_B : Int

/-- The `set_if_exists` calls of `make_input_row` in program order, each
as a (logical column name, value) pair; the `for` loops over the
category literals are written out by `List.map` over the same
literals. -/
def writeList (inp : Inputs) : List (String × Int) :=
  [("TP_FAIXA_ETARIA", inp.TP_FAIXA_ETARIA),
   ("Qtd Residentes", inp.Qtd_Residentes),
   ("Renda Familiar_ord", inp.Renda_Familiar_ord),
   ("Instrução do pai_ord", inp.Instrucao_pai_ord),
   ("Instrução da mãe_ord", inp.Instrucao_mae_ord),
   ("Profissão do pai_ord", inp.Prof_pai_ord),
   ("Profissão da mãe_ord", inp.Prof_mae_ord),
   ("Instrução do pai_nao_sei", inp.Instrucao_pai_ns),
   ("Instrução da mãe_nao_sei", inp.Instrucao_mae_ns),
   ("Profissão do pai_nao_sei", inp.Prof_pai_ns),
   ("Profissão da mãe_nao_sei", inp.Prof_mae_ns)]
  ++ (["F", "M"].map fun s =>
       ("TP_SEXO_" ++ s, if inp.TP_SEXO = s then (1 : Int) else 0))
  ++ (["0.0", "1.0", "2.0", "3.0", "4.0"].map fun k =>
       ("TP_ESTADO_CIVIL_" ++ k, if inp.TP_ESTADO_CIVIL = k then (1 : Int) else 0))
  ++ (["0", "1", "2", "3", "4", "5", "6"].map fun k =>
       ("TP_COR_RACA_" ++ k, if inp.TP_COR_RACA = k then (1 : Int) else 0))
  ++ (["0", "1", "2", "3", "4"].map fun k =>
       ("TP_NACIONALIDADE_" ++ k, if inp.TP_NACIONALIDADE = k then (1 : Int) else 0))
  ++ (["1", "2", "4"].map fun k =>
       ("TP_ST_CONCLUSAO_" ++ k, if inp.TP_ST_CONCLUSAO = k then (1 : Int) else 0))
  ++ (["1", "2", "3"].map fun k =>
       ("TP_ESCOLA_" ++ k, if inp.TP_ESCOLA = k then (1 : Int) else 0))
  ++ [("SG_UF_PROVA_" ++ inp.UF, (1 : Int))]
  ++ (["0", "1"].map fun k =>
       ("TP_LINGUA_" ++ k, if inp.TP_LINGUA = k then (1 : Int) else 0))
  ++ [("Acesso à internet_A", inp.Internet_A),
      ("Acesso à internet_B", inp.Internet_B)]

/-- `make_input_row`: start from `empty_row`, perform every
`set_if_exists` in program order, and finally reindex the row to the
exact feature-list order (`row[feature_list]`). -/
def make_input_row (inp : Inputs) (feature_list : List String) (d : Diag) :
    Row × Diag :=
  let st := (writeList inp).foldl
    (fun st p => set_if_exists feature_list p.1 p.2 st)
    (empty_row feature_list, d)
  (feature_list.map (fun c => (c, rowGet st.1 c)), st.2)

/-! ### One form submission

Streamlit re-executes `app.py` top to bottom on every interaction, so
the collectors `_missing_cols = []` and `_suggestions = {}` are
re-initialized before each submission is processed; only the
`st.cache_resource` artifact pair (the model and `FEATURE_LIST`)
survives across runs, and it is never written after loading.  A
submission is therefore a pure function of the cached artifacts and the
form selections. -/

/-- Process one submission: encode the answers starting from freshly
initialized collectors, then predict.  The model is an opaque function
of the encoded row. -/
def process_submission (predict : Row → Int) (feature_list : List String)
    (inp : Inputs) : Row × Diag × Int :=
  let r := make_input_row inp feature_list ⟨[], []⟩
  (r.1, r.2, predict r.1)

/-- A session: each submission re-runs the script against the same
cached artifacts. -/
def run_session (predict : Row → Int) (feature_list : List String)
    (forms : List Inputs) : List (Row × Diag × Int) :=
  forms.map (process_submission predict feature_list)

/-! ### Shape of normalized tokens -/

/-- No two adjacent underscores. -/
def noDD : List Char → Bool
  | c :: d :: l => (!(c == '_' && d == '_')) && noDD (d :: l)
  | _ => true

/-- A canonical token: only `[a-z0-9_]`, no run of underscores, and no
leading or trailing underscore. -/
def isToken (t : String) : Bool :=
  t.data.all (fun c => isLowerAlnum c || c == '_') && noDD t.data &&
  !(t.data.head? == some '_') && !(t.data.getLast? == some '_')

theorem noDD_iff_chain : ∀ l : List Char,
    noDD l = true ↔ l.Chain' (fun a b => ¬(a = '_' ∧ b = '_'))
  | [] => by simp [noDD]
  | [c] => by simp [noDD]
  | c :: d :: l => by
    rw [List.chain'_cons, ← noDD_iff_chain (d :: l)]
    simp only [noDD, Bool.and_eq_true, Bool.not_eq_true', Bool.and_eq_false_iff,
      beq_eq_false_iff_ne, ne_eq]
    tauto

theorem noDD_tail {c : Char} {l : List Char} (h : noDD (c :: l) = true) :
    noDD l = true := by
  cases l with
  | nil => simp [noDD]
  | cons d l => simp [noDD] at h ⊢; exact h.2

theorem noDD_cons_of {c : Char} {l : List Char}
    (h1 : c = '_' → l.head? ≠ some '_') (h2 : noDD l = true) :
    noDD (c :: l) = true := by
  cases l with
  | nil => simp [noDD]
  | cons d l =>
    have hd : ¬(c = '_' ∧ d = '_') := by
      rintro ⟨hc, hdd⟩
      exact h1 hc (by simp [hdd])
    simp only [noDD, Bool.and_eq_true, Bool.not_eq_true', Bool.and_eq_false_iff,
      beq_eq_false_iff_ne, ne_eq]
    refine ⟨?_, h2⟩
    tauto

theorem collapseAux_all {p : Char → Bool} (hu : p '_' = true) :
    ∀ (l : List Char) (b : Bool), l.all p = true →
      (collapseAux b l).all p = true
  | [], _ => by simp [collapseAux]
  | c :: cs, b => by
    intro h
    simp only [List.all_cons, Bool.and_eq_true] at h
    by_cases hc : c = '_'
    · subst hc
      cases b with
      | true => simpa [collapseAux] using collapseAux_all hu cs true h.2
      | false =>
        have e : collapseAux false ('_' :: cs) = '_' :: collapseAux true cs := by
          simp [collapseAux]
        rw [e]
        simp only [List.all_cons, Bool.and_eq_true]
        exact ⟨hu, collapseAux_all hu cs true h.2⟩
    · simp only [collapseAux, if_neg hc, List.all_cons, Bool.and_eq_true]
      exact ⟨h.1, collapseAux_all hu cs false h.2⟩

theorem collapseAux_shape : ∀ (l : List Char) (b : Bool),
    noDD (collapseAux b l) = true ∧
      (b = true → (collapseAux b l).head? ≠ some '_')
  | [], b => by simp [collapseAux, noDD]
  | c :: cs, b => by
    by_cases hc : c = '_'
    · subst hc
      cases b with
      | true =>
        simpa [collapseAux] using collapseAux_shape cs true
      | false =>
        have ih := collapseAux_shape cs true
        have e : collapseAux false ('_' :: cs) = '_' :: collapseAux true cs := by
          simp [collapseAux]
        rw [e]
        exact ⟨noDD_cons_of (fun _ => ih.2 rfl) ih.1, by simp⟩
    · have ih := collapseAux_shape cs false
      have e : collapseAux b (c :: cs) = c :: collapseAux false cs := by
        simp [collapseAux, hc]
      rw [e]
      refine ⟨noDD_cons_of (fun h => absurd h hc) ih.1, fun _ => ?_⟩
      simp [hc]

theorem mem_dropWhile {p : Char → Bool} {c : Char} {l : List Char}
    (h : c ∈ l.dropWhile p) : c ∈ l :=
  List.Sublist.mem h ((List.dropWhile_suffix p).sublist)

theorem mem_stripU {c : Char} {l : List Char} (h : c ∈ stripU l) : c ∈ l := by
  unfold stripU dropTrailingU at h
  rw [List.mem_reverse] at h
  exact mem_dropWhile (List.mem_reverse.mp (mem_dropWhile h))

theorem noDD_stripU {l : List Char} (h : noDD l = true) :
    noDD (stripU l) = true := by
  rw [noDD_iff_chain] at h ⊢
  unfold stripU dropTrailingU
  have h1 : (l.dropWhile (fun c => c == '_')).Chain'
      (fun a b => ¬(a = '_' ∧ b = '_')) :=
    h.suffix (List.dropWhile_suffix _)
  have h2 := (List.chain'_reverse.mpr (h1.imp (fun a b hab => by tauto))).suffix
    (List.dropWhile_suffix (fun c => c == '_'))
  exact (List.chain'_reverse.mp (by simpa using h2)).imp (fun a b hab => by tauto)

theorem head?_dropWhileU : ∀ l : List Char,
    (l.dropWhile (fun c => c == '_')).head? ≠ some '_'
  | [] => by simp
  | c :: cs => by
    by_cases hc : c = '_'
    · subst hc
      simpa [List.dropWhile] using head?_dropWhileU cs
    · have hc' : (c == '_') = false := by simpa using hc
      simp [List.dropWhile, hc', hc]

theorem dropTrailingU_pre (l : List Char) : dropTrailingU l <+: l := by
  unfold dropTrailingU
  rw [← List.reverse_suffix]
  simpa using List.dropWhile_suffix (l := l.reverse) (fun c => c == '_')

theorem head?_pre {l₁ l₂ : List Char} (h : l₁ <+: l₂) :
    l₁.head? = none ∨ l₁.head? = l₂.head? := by
  obtain ⟨t, rfl⟩ := h
  cases l₁ with
  | nil => exact Or.inl rfl
  | cons c cs => exact Or.inr (by simp)

theorem head?_stripU (l : List Char) : (stripU l).head? ≠ some '_' := by
  unfold stripU
  rcases head?_pre (dropTrailingU_pre (l.dropWhile (fun c => c == '_'))) with h | h
  · simp [h]
  · rw [h]; exact head?_dropWhileU l

theorem getLast?_stripU (l : List Char) : (stripU l).getLast? ≠ some '_' := by
  unfold stripU dropTrailingU
  rw [List.getLast?_reverse]
  exact head?_dropWhileU _

/-- Every output of `normalizeStr` is a canonical token. -/
theorem isToken_normalizeStr (s : String) : isToken (normalizeStr s) = true := by
  have hdata : (normalizeStr s).data
      = stripU (collapseAux false
          (((foldChars s.data).map pyLower).map toUnderscore)) := rfl
  set l := ((foldChars s.data).map pyLower).map toUnderscore with hl
  have hall : l.all (fun c => isLowerAlnum c || c == '_') = true := by
    rw [List.all_eq_true]
    intro c hc
    rw [hl, List.mem_map] at hc
    obtain ⟨a, _, rfl⟩ := hc
    unfold toUnderscore
    by_cases h : isLowerAlnum a <;> simp [h]
  have hcoll := collapseAux_all (p := fun c => isLowerAlnum c || c == '_')
    (by simp) l false hall
  unfold isToken
  rw [hdata]
  simp only [Bool.and_eq_true]
  refine ⟨⟨⟨?_, ?_⟩, ?_⟩, ?_⟩
  · rw [List.all_eq_true]
    intro c hc
    exact (List.all_eq_true.mp hcoll) c (mem_stripU hc)
  · exact noDD_stripU (collapseAux_shape l false).1
  · simpa using head?_stripU _
  · simpa using getLast?_stripU _

/-! ### Identity of the pipeline on canonical tokens -/

theorem asciiFold_ascii {c : Char} (h : c.toNat < 128) : asciiFold c = [c] := by
  unfold asciiFold
  rw [if_pos h]

theorem foldChars_id : ∀ {l : List Char}, (∀ c ∈ l, c.toNat < 128) →
    foldChars l = l
  | [], _ => rfl
  | c :: cs, h => by
    rw [foldChars, asciiFold_ascii (h c (by simp)),
      foldChars_id (fun d hd => h d (by simp [hd]))]
    rfl

theorem charClass_of_isLowerAlnum {c : Char}
    (h : (isLowerAlnum c || c == '_') = true) :
    (97 ≤ c.toNat ∧ c.toNat ≤ 122) ∨ (48 ≤ c.toNat ∧ c.toNat ≤ 57) ∨
      c.toNat = 95 := by
  simp only [isLowerAlnum, Bool.or_eq_true, Bool.and_eq_true, decide_eq_true_eq,
    beq_iff_eq] at h
  rcases h with (⟨h1, h2⟩ | ⟨h1, h2⟩) | h
  · exact Or.inl ⟨h1, h2⟩
  · exact Or.inr (Or.inl ⟨h1, h2⟩)
  · subst h; exact Or.inr (Or.inr rfl)

theorem pyLower_id {c : Char} (h : (isLowerAlnum c || c == '_') = true) :
    pyLower c = c := by
  unfold pyLower
  rw [if_neg]
  intro hc
  simp only [Bool.and_eq_true, decide_eq_true_eq] at hc
  have h1 : (65 : Nat) ≤ c.toNat := hc.1
  have h2 : c.toNat ≤ 90 := hc.2
  rcases charClass_of_isLowerAlnum h with ⟨h3, _⟩ | ⟨_, h4⟩ | h5 <;> omega

theorem toUnderscore_id {c : Char} (h : (isLowerAlnum c || c == '_') = true) :
    toUnderscore c = c := by
  unfold toUnderscore
  by_cases hc : isLowerAlnum c
  · rw [if_pos hc]
  · simp only [hc, Bool.false_or, beq_iff_eq] at h
    subst h
    rfl

theorem collapseAux_id : ∀ {l : List Char} {b : Bool}, noDD l = true →
    (b = true → l.head? ≠ some '_') → collapseAux b l = l
  | [], b, _, _ => by cases b <;> rfl
  | c :: cs, b, h, hb => by
    by_cases hc : c = '_'
    · subst hc
      cases b with
      | true => exact absurd (by simp : ('_' :: cs).head? = some '_') (hb rfl)
      | false =>
        have e : collapseAux false ('_' :: cs) = '_' :: collapseAux true cs := by
          simp [collapseAux]
        rw [e, collapseAux_id (noDD_tail h) ?_]
        intro _ hh
        cases cs with
        | nil => simp at hh
        | cons d l =>
          simp only [List.head?_cons, Option.some.injEq] at hh
          simp [noDD, hh] at h
    · have e : collapseAux b (c :: cs) = c :: collapseAux false cs := by
        simp [collapseAux, hc]
      rw [e, collapseAux_id (noDD_tail h) (by simp)]

theorem dropWhileU_id {l : List Char} (h : l.head? ≠ some '_') :
    l.dropWhile (fun c => c == '_') = l := by
  cases l with
  | nil => rfl
  | cons c cs =>
    simp only [List.head?_cons, ne_eq, Option.some.injEq] at h
    have hc' : (c == '_') = false := by simpa using h
    simp [List.dropWhile, hc']

theorem stripU_id {l : List Char} (h1 : l.head? ≠ some '_')
    (h2 : l.getLast? ≠ some '_') : stripU l = l := by
  unfold stripU dropTrailingU
  rw [dropWhileU_id h1, dropWhileU_id (by simpa using h2), List.reverse_reverse]

/-- `normalizeStr` leaves canonical tokens unchanged. -/
theorem normalizeStr_of_isToken {t : String} (h : isToken t = true) :
    normalizeStr t = t := by
  unfold isToken at h
  simp only [Bool.and_eq_true, Bool.not_eq_true', beq_eq_false_iff_ne, ne_eq]
    at h
  obtain ⟨⟨⟨hall, hdd⟩, hhd⟩, hlast⟩ := h
  have hfold : foldChars t.data = t.data := by
    apply foldChars_id
    intro c hc
    rcases charClass_of_isLowerAlnum ((List.all_eq_true.mp hall) c hc)
      with ⟨_, h2⟩ | ⟨_, h2⟩ | h2 <;> omega
  have hlow : t.data.map pyLower = t.data := by
    have := List.map_congr_left (l := t.data) (f := pyLower) (g := id)
      (fun c hc => pyLower_id ((List.all_eq_true.mp hall) c hc))
    simpa using this
  have hund : t.data.map toUnderscore = t.data := by
    have := List.map_congr_left (l := t.data) (f := toUnderscore) (g := id)
      (fun c hc => toUnderscore_id ((List.all_eq_true.mp hall) c hc))
    simpa using this
  have : normalizeStr t = ⟨stripU (collapseAux false t.data)⟩ := by
    unfold normalizeStr
    rw [hfold, hlow, hund]
  rw [this, collapseAux_id hdd (by simp), stripU_id hhd hlast]

/-! ### Properties of the name index and `resolve_col` -/

/-- The lookup of `resolve_col` without its suggestion side effect. -/
def resolveName (feature_list : List String) (col_name : String) :
    Option String :=
  dictLookup (ACTUAL_MAP feature_list) (normalizeStr col_name)

/-- The schema invariant: no two canonical columns normalize to the same
token. -/
def normInjOn (feature_list : List String) : Prop :=
  ∀ c₁ ∈ feature_list, ∀ c₂ ∈ feature_list,
    normalizeStr c₁ = normalizeStr c₂ → c₁ = c₂

instance (feature_list : List String) : Decidable (normInjOn feature_list) := by
  unfold normInjOn
  infer_instance

theorem resolve_col_fst (feature_list : List String) (col_name : String)
    (d : Diag) :
    (resolve_col feature_list col_name d).1
      = resolveName feature_list col_name := by
  cases h : dictLookup (ACTUAL_MAP feature_list) (normalizeStr col_name) with
  | some real => simp [resolve_col, resolveName, h]
  | none =>
    by_cases hcl : (get_close_matches (normalizeStr col_name)
        (dictKeys (ACTUAL_MAP feature_list)) 3 (3 / 5)).isEmpty
    <;> simp [resolve_col, resolveName, h, hcl]

theorem lookup_actual_some {feature_list : List String} {n r : String}
    (h : dictLookup (ACTUAL_MAP feature_list) n = some r) :
    r ∈ feature_list ∧ normalizeStr r = n := by
  unfold dictLookup at h
  cases hf : (ACTUAL_MAP feature_list).reverse.find? (fun p => p.1 == n) with
  | none => rw [hf] at h; cases h
  | some e =>
    rw [hf] at h
    have hr : e.2 = r := by simpa using h
    have he : e ∈ (ACTUAL_MAP feature_list).reverse := List.mem_of_find?_eq_some hf
    have hp0 := List.find?_some hf
    have hp : (e.1 == n) = true := hp0
    rw [List.mem_reverse] at he
    unfold ACTUAL_MAP at he
    rw [List.mem_map] at he
    obtain ⟨c, hcmem, hce⟩ := he
    have h1 : e.1 = normalizeStr c := by rw [← hce]
    have h2 : e.2 = c := by rw [← hce]
    rw [← hr, h2]
    refine ⟨hcmem, ?_⟩
    rw [← h1]
    simpa using hp

theorem lookup_actual_mem {feature_list : List String}
    (hinj : normInjOn feature_list) {c : String} (hc : c ∈ feature_list) :
    dictLookup (ACTUAL_MAP feature_list) (normalizeStr c) = some c := by
  cases h : dictLookup (ACTUAL_MAP feature_list) (normalizeStr c) with
  | none =>
    exfalso
    unfold dictLookup at h
    have hmem : ((normalizeStr c, c) : String × String)
        ∈ (ACTUAL_MAP feature_list).reverse := by
      rw [List.mem_reverse]
      unfold ACTUAL_MAP
      exact List.mem_map_of_mem _ hc
    have hnone : (ACTUAL_MAP feature_list).reverse.find?
        (fun p => p.1 == normalizeStr c) = none := by
      cases hf : (ACTUAL_MAP feature_list).reverse.find?
          (fun p => p.1 == normalizeStr c) with
      | none => rfl
      | some e => rw [hf] at h; cases h
    have := List.find?_eq_none.mp hnone _ hmem
    simp at this
  | some r =>
    obtain ⟨hr, hn⟩ := lookup_actual_some h
    rw [hinj r hr c hc hn]

/-! ### Claim theorems: normalization -/

/-- C2: `normalize` is idempotent — normalizing the output of
`normalize` returns it unchanged. -/
theorem normalize_idempotent (s : String) :
    normalize (some (normalize (some s))) = normalize (some s) :=
  normalizeStr_of_isToken (isToken_normalizeStr s)

/-- C3: every output of `normalize` is a lowercase `[a-z0-9_]` token with
no doubled, leading or trailing underscore (diacritics having been
stripped and non-alphanumeric runs replaced by a single underscore), and
in particular `normalize("Instrução") = "instrucao"`. -/
theorem normalize_shape :
    (∀ s : String, isToken (normalize (some s)) = true) ∧
      normalize (some "Instrução") = "instrucao" :=
  ⟨fun s => isToken_normalizeStr s, by decide⟩

/-- C10: `normalize` maps the absent input `None` to the empty string via
its guard, and every actual string is processed by the normalization
pipeline instead. -/
theorem normalize_none_guard :
    normalize none = "" ∧ ∀ s : String, normalize (some s) = normalizeStr s :=
  ⟨rfl, fun _ => rfl⟩

/-- C4: `map_nao_sei` sends "Não sei" to ordinal 0 with flag 1 in both
maps, and any listed selection to its 1-based position with flag 0; the
education list has 7 entries and the occupation list 5. -/
theorem map_nao_sei_spec :
    map_nao_sei "Não sei" INSTR_MAP = some (0, 1) ∧
    map_nao_sei "Não sei" PROF_MAP = some (0, 1) ∧
    (∀ i : Fin INSTR_LIST.length,
      map_nao_sei (INSTR_LIST.get i) INSTR_MAP = some (i.1 + 1, 0)) ∧
    (∀ i : Fin PROF_LIST.length,
      map_nao_sei (PROF_LIST.get i) PROF_MAP = some (i.1 + 1, 0)) ∧
    INSTR_LIST.length = 7 ∧ PROF_LIST.length = 5 := by
  decide

/-- C1: under the normalization-injectivity invariant, resolving a
canonical column — or its normalized form — returns exactly that
column. -/
theorem resolve_col_canonical (feature_list : List String)
    (hinj : normInjOn feature_list) (c : String) (hc : c ∈ feature_list)
    (d : Diag) :
    (resolve_col feature_list c d).1 = some c ∧
      (resolve_col feature_list (normalizeStr c) d).1 = some c := by
  constructor
  · rw [resolve_col_fst]
    exact lookup_actual_mem hinj hc
  · rw [resolve_col_fst]
    unfold resolveName
    rw [show normalizeStr (normalizeStr c) = normalizeStr c from
      normalizeStr_of_isToken (isToken_normalizeStr c)]
    exact lookup_actual_mem hinj hc

/-- Witness for C1 at a concrete two-column schema. -/
theorem resolve_col_canonical_witness :
    normInjOn ["TP_SEXO_F", "TP_SEXO_M"] ∧
    "TP_SEXO_F" ∈ ["TP_SEXO_F", "TP_SEXO_M"] ∧
    ((resolve_col ["TP_SEXO_F", "TP_SEXO_M"] "TP_SEXO_F" ⟨[], []⟩).1
        = some "TP_SEXO_F" ∧
      (resolve_col ["TP_SEXO_F", "TP_SEXO_M"] (normalizeStr "TP_SEXO_F")
        ⟨[], []⟩).1 = some "TP_SEXO_F") :=
  ⟨by decide, by decide,
    resolve_col_canonical ["TP_SEXO_F", "TP_SEXO_M"] (by decide)
      "TP_SEXO_F" (by decide) ⟨[], []⟩⟩

/-! ### Evaluation of the encoder -/

theorem rowCols_rowSet (row : Row) (c : String) (v : Int) :
    rowCols (rowSet row c v) = rowCols row := by
  unfold rowCols rowSet
  rw [List.map_map]
  apply List.map_congr_left
  intro p _
  by_cases h : p.1 = c <;> simp [h]

theorem rowGet_rowSet_self {row : Row} {c : String}
    (hc : c ∈ rowCols row) (v : Int) : rowGet (rowSet row c v) c = v := by
  induction row with
  | nil => cases hc
  | cons p row ih =>
    by_cases h : p.1 = c
    · have h' : (p.1 == c) = true := by simpa using h
      simp [rowSet, rowGet, List.find?, h']
    · have h' : (p.1 == c) = false := by simpa using h
      have hc' : c ∈ rowCols row := by
        rw [show rowCols (p :: row) = p.1 :: rowCols row from rfl] at hc
        rcases List.mem_cons.mp hc with h'' | h''
        · exact absurd h''.symm h
        · exact h''
      simpa [rowSet, rowGet, List.find?, h'] using ih hc'

theorem rowGet_rowSet_ne {r c : String} (hne : r ≠ c) (row : Row) (v : Int) :
    rowGet (rowSet row r v) c = rowGet row c := by
  induction row with
  | nil => rfl
  | cons p row ih =>
    by_cases h : p.1 = r
    · have h' : (p.1 == r) = true := by simpa using h
      have hrc : (r == c) = false := by simpa using hne
      have hpc : (p.1 == c) = false := by
        simpa [h] using hne
      simpa [rowSet, rowGet, List.find?, h', hrc, hpc] using ih
    · have h' : (p.1 == r) = false := by simpa using h
      by_cases h2 : p.1 = c
      · have h2' : (p.1 == c) = true := by simpa using h2
        simp [rowSet, rowGet, List.find?, h', h2']
      · have h2' : (p.1 == c) = false := by simpa using h2
        simpa [rowSet, rowGet, List.find?, h', h2'] using ih

theorem rowGet_empty_row (feature_list : List String) (c : String) :
    rowGet (empty_row feature_list) c = 0 := by
  induction feature_list with
  | nil => rfl
  | cons a l ih =>
    by_cases h : a = c
    · have h' : (a == c) = true := by simpa using h
      simp [empty_row, rowGet, List.find?, h']
    · have h' : (a == c) = false := by simpa using h
      simpa [empty_row, rowGet, List.find?, h'] using ih

theorem rowCols_empty_row (feature_list : List String) :
    rowCols (empty_row feature_list) = feature_list := by
  induction feature_list with
  | nil => rfl
  | cons a l ih => simpa [rowCols, empty_row] using ih

/-- On lookup failure `set_if_exists` leaves the row unchanged and
appends the logical name to the missing list, whatever the suggestion
branch does. -/
theorem set_if_exists_none {feature_list : List String} {L : String}
    (h : resolveName feature_list L = none) (v : Int) (row : Row) (d : Diag) :
    (set_if_exists feature_list L v (row, d)).1 = row ∧
      (set_if_exists feature_list L v (row, d)).2.missing
        = d.missing ++ [L] := by
  have hfind : (ACTUAL_MAP feature_list).reverse.find?
      (fun p => p.1 == normalizeStr L) = none := by
    unfold resolveName dictLookup at h
    cases hf : (ACTUAL_MAP feature_list).reverse.find?
        (fun p => p.1 == normalizeStr L) with
    | none => rfl
    | some e => rw [hf] at h; cases h
  by_cases hcl : (get_close_matches (normalizeStr L)
      (dictKeys (ACTUAL_MAP feature_list)) 3 (3 / 5)).isEmpty <;>
    simp [set_if_exists, resolve_col, dictLookup, hfind, hcl]

/-- On lookup success `set_if_exists` writes the resolved column (which
is always one of the row's columns when the row is indexed by the
feature list) and leaves the diagnostics unchanged. -/
theorem set_if_exists_some {feature_list : List String} {L real : String}
    (h : resolveName feature_list L = some real) (v : Int) {row : Row}
    (hcols : rowCols row = feature_list) (d : Diag) :
    set_if_exists feature_list L v (row, d) = (rowSet row real v, d) := by
  have hmem : real ∈ feature_list := (lookup_actual_some h).1
  have hcont : (rowCols row).contains real = true := by
    rw [hcols]
    exact List.elem_eq_true_of_mem hmem
  unfold resolveName at h
  unfold set_if_exists
  simp only [resolve_col, h]
  rw [if_pos hcont]

theorem rowCols_set_if_exists (feature_list : List String) (L : String)
    (v : Int) (row : Row) (d : Diag) :
    rowCols (set_if_exists feature_list L v (row, d)).1 = rowCols row := by
  cases h : resolveName feature_list L with
  | none => rw [(set_if_exists_none h v row d).1]
  | some real =>
    unfold resolveName at h
    unfold set_if_exists
    simp only [resolve_col, h]
    by_cases hcont : (rowCols row).contains real = true
    · rw [if_pos hcont]
      exact rowCols_rowSet row real v
    · rw [if_neg hcont]

/-- The value a single `set_if_exists` leaves in column `c`, under the
injectivity invariant: the write lands on `c` exactly when the logical
name normalizes like `c`. -/
theorem rowGet_set_if_exists {feature_list : List String}
    (hinj : normInjOn feature_list) {c : String} (hc : c ∈ feature_list)
    {row : Row} (hcols : rowCols row = feature_list) (L : String) (v : Int)
    (d : Diag) :
    rowGet (set_if_exists feature_list L v (row, d)).1 c
      = if normalizeStr L = normalizeStr c then v else rowGet row c := by
  by_cases heq : normalizeStr L = normalizeStr c
  · rw [if_pos heq]
    have hres : resolveName feature_list L = some c := by
      unfold resolveName
      rw [heq]
      exact lookup_actual_mem hinj hc
    rw [set_if_exists_some hres v hcols d]
    exact rowGet_rowSet_self (hcols ▸ hc) v
  · rw [if_neg heq]
    cases hres : resolveName feature_list L with
    | none => rw [(set_if_exists_none hres v row d).1]
    | some real =>
      obtain ⟨hrmem, hrn⟩ := lookup_actual_some hres
      have hne : real ≠ c := fun hrc => heq (by rw [← hrn, hrc])
      rw [set_if_exists_some hres v hcols d]
      exact rowGet_rowSet_ne hne row v

/-- The last write whose logical name normalizes to `n`. -/
def lastWrite (ws : List (String × Int)) (n : String) : Option Int :=
  (ws.reverse.find? (fun p => normalizeStr p.1 == n)).map (fun p => p.2)

theorem lastWrite_cons (w : String × Int) (ws : List (String × Int))
    (n : String) :
    lastWrite (w :: ws) n
      = (lastWrite ws n).or
          (if normalizeStr w.1 = n then some w.2 else none) := by
  unfold lastWrite
  rw [List.reverse_cons, List.find?_append]
  cases h : ws.reverse.find? (fun p => normalizeStr p.1 == n) with
  | some e => simp
  | none =>
    by_cases hw : normalizeStr w.1 = n
    · have hw' : (normalizeStr w.1 == n) = true := by simpa using hw
      simp [List.find?, hw', hw]
    · have hw' : (normalizeStr w.1 == n) = false := by simpa using hw
      simp [List.find?, hw', hw]

/-- Folding the writes: the final value of column `c` is the last write
normalizing to `normalizeStr c`, defaulting to the initial value. -/
theorem rowGet_foldl {feature_list : List String}
    (hinj : normInjOn feature_list) {c : String} (hc : c ∈ feature_list) :
    ∀ (ws : List (String × Int)) (row : Row) (d : Diag),
      rowCols row = feature_list →
      rowGet ((ws.foldl (fun st p => set_if_exists feature_list p.1 p.2 st)
          (row, d)).1) c
        = (lastWrite ws (normalizeStr c)).getD (rowGet row c)
  | [], row, d, _ => rfl
  | w :: ws, row, d, hcols => by
    rw [List.foldl_cons]
    have hstep : set_if_exists feature_list w.1 w.2 (row, d)
        = ((set_if_exists feature_list w.1 w.2 (row, d)).1,
           (set_if_exists feature_list w.1 w.2 (row, d)).2) := rfl
    rw [hstep, rowGet_foldl hinj hc ws _ _
      (by rw [rowCols_set_if_exists]; exact hcols)]
    rw [rowGet_set_if_exists hinj hc hcols w.1 w.2 d, lastWrite_cons]
    cases h : lastWrite ws (normalizeStr c) with
    | some v => simp
    | none =>
      by_cases hw : normalizeStr w.1 = normalizeStr c <;> simp [hw]

theorem rowGet_reindex (feature_list : List String) (row : Row) {c : String}
    (hc : c ∈ feature_list) :
    rowGet (feature_list.map (fun x => (x, rowGet row x))) c
      = rowGet row c := by
  induction feature_list with
  | nil => cases hc
  | cons a l ih =>
    by_cases h : a = c
    · have h' : (a == c) = true := by simpa using h
      simp [rowGet, List.find?, h', h]
    · have h' : (a == c) = false := by simpa using h
      have hc' : c ∈ l := by
        rcases List.mem_cons.mp hc with h'' | h''
        · exact absurd h''.symm h
        · exact h''
      simpa [rowGet, List.find?, h'] using ih hc'

/-- Master evaluation lemma: under the injectivity invariant the value of
a schema column `c` in the encoded row is the value of the last
`set_if_exists` whose logical name normalizes to `normalizeStr c`,
defaulting to zero. -/
theorem rowGet_make_input_row {feature_list : List String}
    (hinj : normInjOn feature_list) {c : String} (hc : c ∈ feature_list)
    (inp : Inputs) (d : Diag) :
    rowGet (make_input_row inp feature_list d).1 c
      = (lastWrite (writeList inp) (normalizeStr c)).getD 0 := by
  unfold make_input_row
  rw [rowGet_reindex feature_list _ hc,
    rowGet_foldl hinj hc (writeList inp) _ _ (rowCols_empty_row feature_list),
    rowGet_empty_row]

theorem rowCols_pairs (l : List String) (g : String → Int) :
    rowCols (l.map (fun x => (x, g x))) = l := by
  induction l with
  | nil => rfl
  | cons a t ih => simpa [rowCols] using ih

theorem rowCols_make_input_row (inp : Inputs) (feature_list : List String)
    (d : Diag) :
    rowCols (make_input_row inp feature_list d).1 = feature_list := by
  simp only [make_input_row]
  exact rowCols_pairs feature_list _

/-! ### Claim theorems: columns and missing-name handling -/

/-- C7: for every input, the encoded row has exactly the feature list's
columns, in the feature list's order. -/
theorem make_input_row_columns (inp : Inputs) (feature_list : List String)
    (d : Diag) :
    rowCols (make_input_row inp feature_list d).1 = feature_list :=
  rowCols_make_input_row inp feature_list d

/-- C6: an unresolvable logical name is appended to the missing list, the
row is returned unchanged with every column keeping its previous (default
zero) value, and `set_if_exists` returns normally. -/
theorem set_if_exists_missing (feature_list : List String) (L : String)
    (h : resolveName feature_list L = none) (v : Int) (row : Row) (d : Diag) :
    (set_if_exists feature_list L v (row, d)).1 = row ∧
      (set_if_exists feature_list L v (row, d)).2.missing
        = d.missing ++ [L] ∧
      ∀ c : String,
        rowGet (set_if_exists feature_list L v (row, d)).1 c = rowGet row c := by
  obtain ⟨h1, h2⟩ := set_if_exists_none h v row d
  exact ⟨h1, h2, fun c => by rw [h1]⟩

/-- Witness for C6: "Qtd Residentes" does not resolve in a one-column
schema and is recorded as missing. -/
theorem set_if_exists_missing_witness :
    resolveName ["TP_SEXO_F"] "Qtd Residentes" = none ∧
      ((set_if_exists ["TP_SEXO_F"] "Qtd Residentes" 3
          (empty_row ["TP_SEXO_F"], ⟨[], []⟩)).1 = empty_row ["TP_SEXO_F"] ∧
        (set_if_exists ["TP_SEXO_F"] "Qtd Residentes" 3
          (empty_row ["TP_SEXO_F"], ⟨[], []⟩)).2.missing
            = ([] : List String) ++ ["Qtd Residentes"] ∧
        ∀ c : String,
          rowGet (set_if_exists ["TP_SEXO_F"] "Qtd Residentes" 3
            (empty_row ["TP_SEXO_F"], ⟨[], []⟩)).1 c
              = rowGet (empty_row ["TP_SEXO_F"]) c) :=
  ⟨by decide,
    set_if_exists_missing ["TP_SEXO_F"] "Qtd Residentes" (by decide) 3
      (empty_row ["TP_SEXO_F"]) ⟨[], []⟩⟩

/-! ### Properties of the fuzzy suggestions -/

theorem mem_insertDesc {p q : Rat × String} {l : List (Rat × String)}
    (h : q ∈ insertDesc p l) : q = p ∨ q ∈ l := by
  induction l with
  | nil => simpa [insertDesc] using h
  | cons a t ih =>
    unfold insertDesc at h
    by_cases hcond : a.1 < p.1 ∨ (a.1 = p.1 ∧ a.2 < p.2)
    · rw [if_pos hcond] at h
      rcases List.mem_cons.mp h with h' | h'
      · exact Or.inl h'
      · exact Or.inr h'
    · rw [if_neg hcond] at h
      rcases List.mem_cons.mp h with h' | h'
      · exact Or.inr (h' ▸ List.mem_cons_self a t)
      · rcases ih h' with h'' | h''
        · exact Or.inl h''
        · exact Or.inr (List.mem_cons_of_mem a h'')

theorem mem_sortDesc {q : Rat × String} {l : List (Rat × String)}
    (h : q ∈ sortDesc l) : q ∈ l := by
  induction l with
  | nil => simpa [sortDesc] using h
  | cons a t ih =>
    unfold sortDesc at h
    rcases mem_insertDesc h with h' | h'
    · exact h' ▸ List.mem_cons_self a t
    · exact List.mem_cons_of_mem a (ih h')

theorem get_close_matches_length (word : String) (possibilities : List String)
    (n : Nat) (cutoff : Rat) :
    (get_close_matches word possibilities n cutoff).length ≤ n := by
  unfold get_close_matches
  rw [List.length_map]
  exact List.length_take_le n _

theorem mem_get_close_matches {word x : String} {possibilities : List String}
    {n : Nat} {cutoff : Rat}
    (hx : x ∈ get_close_matches word possibilities n cutoff) :
    x ∈ possibilities ∧ cutoff ≤ similarity x.data word.data := by
  unfold get_close_matches at hx
  rw [List.mem_map] at hx
  obtain ⟨p, hp, rfl⟩ := hx
  have hp1 : p ∈ sortDesc (possibilities.filterMap (fun x =>
      if cutoff ≤ similarity x.data word.data
      then some (similarity x.data word.data, x) else none)) :=
    List.mem_of_mem_take hp
  have hp2 := mem_sortDesc hp1
  rw [List.mem_filterMap] at hp2
  obtain ⟨y, hymem, hyeq⟩ := hp2
  by_cases hr : cutoff ≤ similarity y.data word.data
  · rw [if_pos hr] at hyeq
    have : (similarity y.data word.data, y) = p := Option.some.inj hyeq
    rw [← this]
    exact ⟨hymem, hr⟩
  · rw [if_neg hr] at hyeq
    cases hyeq

/-- C8: on an unresolvable name, `resolve_col` returns the not-found
result; fuzzy candidates are at most three indexed tokens of similarity
at least 0.6 against the normalized name, their canonical columns are
stored as suggestions exactly when at least one candidate exists, and
`set_if_exists` on the same name records it as missing while writing
nothing to the row. -/
theorem resolve_col_not_found (feature_list : List String) (L : String)
    (h : resolveName feature_list L = none) (v : Int) (row : Row) (d : Diag) :
    (resolve_col feature_list L d).1 = none ∧
    (resolve_col feature_list L d).2.suggestions
      = (if (get_close_matches (normalizeStr L)
            (dictKeys (ACTUAL_MAP feature_list)) 3 (3 / 5)).isEmpty
         then d.suggestions
         else dictSet d.suggestions L
           ((get_close_matches (normalizeStr L)
              (dictKeys (ACTUAL_MAP feature_list)) 3 (3 / 5)).map
             (fun cn => (dictLookup (ACTUAL_MAP feature_list) cn).getD ""))) ∧
    (get_close_matches (normalizeStr L)
      (dictKeys (ACTUAL_MAP feature_list)) 3 (3 / 5)).length ≤ 3 ∧
    (∀ t ∈ get_close_matches (normalizeStr L)
        (dictKeys (ACTUAL_MAP feature_list)) 3 (3 / 5),
      t ∈ dictKeys (ACTUAL_MAP feature_list) ∧
        (3 / 5 : Rat) ≤ similarity t.data (normalizeStr L).data) ∧
    (set_if_exists feature_list L v (row, d)).1 = row ∧
    (set_if_exists feature_list L v (row, d)).2.missing = d.missing ++ [L] := by
  obtain ⟨h1, h2⟩ := set_if_exists_none h v row d
  have hfst : (resolve_col feature_list L d).1 = none := by
    rw [resolve_col_fst]; exact h
  refine ⟨hfst, ?_, get_close_matches_length _ _ _ _,
    fun t ht => mem_get_close_matches ht, h1, h2⟩
  unfold resolveName at h
  by_cases hcl : (get_close_matches (normalizeStr L)
      (dictKeys (ACTUAL_MAP feature_list)) 3 (3 / 5)).isEmpty <;>
    simp [resolve_col, h, hcl]

/-- Witness for C8: "TP_SEXO" does not resolve against the one-column
schema `["TP_SEXO_F"]`. -/
theorem resolve_col_not_found_witness :
    resolveName ["TP_SEXO_F"] "TP_SEXO" = none ∧
      ((resolve_col ["TP_SEXO_F"] "TP_SEXO" ⟨[], []⟩).1 = none ∧
       (resolve_col ["TP_SEXO_F"] "TP_SEXO" ⟨[], []⟩).2.suggestions
         = (if (get_close_matches (normalizeStr "TP_SEXO")
               (dictKeys (ACTUAL_MAP ["TP_SEXO_F"])) 3 (3 / 5)).isEmpty
            then Diag.suggestions ⟨[], []⟩
            else dictSet (Diag.suggestions ⟨[], []⟩) "TP_SEXO"
              ((get_close_matches (normalizeStr "TP_SEXO")
                 (dictKeys (ACTUAL_MAP ["TP_SEXO_F"])) 3 (3 / 5)).map
                (fun cn => (dictLookup (ACTUAL_MAP ["TP_SEXO_F"]) cn).getD ""))) ∧
       (get_close_matches (normalizeStr "TP_SEXO")
         (dictKeys (ACTUAL_MAP ["TP_SEXO_F"])) 3 (3 / 5)).length ≤ 3 ∧
       (∀ t ∈ get_close_matches (normalizeStr "TP_SEXO")
           (dictKeys (ACTUAL_MAP ["TP_SEXO_F"])) 3 (3 / 5),
         t ∈ dictKeys (ACTUAL_MAP ["TP_SEXO_F"]) ∧
           (3 / 5 : Rat) ≤ similarity t.data (normalizeStr "TP_SEXO").data) ∧
       (set_if_exists ["TP_SEXO_F"] "TP_SEXO" 1
         (empty_row ["TP_SEXO_F"], ⟨[], []⟩)).1 = empty_row ["TP_SEXO_F"] ∧
       (set_if_exists ["TP_SEXO_F"] "TP_SEXO" 1
         (empty_row ["TP_SEXO_F"], ⟨[], []⟩)).2.missing
           = ([] : List String) ++ ["TP_SEXO"]) :=
  ⟨by decide,
    resolve_col_not_found ["TP_SEXO_F"] "TP_SEXO" (by decide) 1
      (empty_row ["TP_SEXO_F"]) ⟨[], []⟩⟩

/-! ### Isolation of submissions -/

theorem set_if_exists_row_indep (feature_list : List String) (L : String)
    (v : Int) (row : Row) (d d' : Diag) :
    (set_if_exists feature_list L v (row, d)).1
      = (set_if_exists feature_list L v (row, d')).1 := by
  cases h : resolveName feature_list L with
  | none => rw [(set_if_exists_none h v row d).1, (set_if_exists_none h v row d').1]
  | some real =>
    unfold resolveName at h
    unfold set_if_exists
    simp only [resolve_col, h]
    by_cases hcont : (rowCols row).contains real = true
    · rw [if_pos hcont, if_pos hcont]
    · rw [if_neg hcont, if_neg hcont]

theorem set_if_exists_missing_decomp (feature_list : List String) (L : String)
    (v : Int) (row : Row) (d : Diag) :
    (set_if_exists feature_list L v (row, d)).2.missing
      = d.missing ++ (set_if_exists feature_list L v (row, ⟨[], []⟩)).2.missing := by
  cases h : resolveName feature_list L with
  | none =>
    rw [(set_if_exists_none h v row d).2,
      (set_if_exists_none h v row ⟨[], []⟩).2]
    simp
  | some real =>
    unfold resolveName at h
    unfold set_if_exists
    simp only [resolve_col, h]
    by_cases hcont : (rowCols row).contains real = true
    · rw [if_pos hcont, if_pos hcont]
      simp
    · rw [if_neg hcont, if_neg hcont]
      simp

theorem foldl_diag_indep (feature_list : List String) :
    ∀ (ws : List (String × Int)) (row : Row) (d : Diag),
      ((ws.foldl (fun st p => set_if_exists feature_list p.1 p.2 st)
          (row, d)).1
        = (ws.foldl (fun st p => set_if_exists feature_list p.1 p.2 st)
            (row, ⟨[], []⟩)).1) ∧
      ((ws.foldl (fun st p => set_if_exists feature_list p.1 p.2 st)
          (row, d)).2.missing
        = d.missing ++
          (ws.foldl (fun st p => set_if_exists feature_list p.1 p.2 st)
            (row, ⟨[], []⟩)).2.missing)
  | [], row, d => by simp
  | w :: ws, row, d => by
    rw [List.foldl_cons, List.foldl_cons]
    have hrow := set_if_exists_row_indep feature_list w.1 w.2 row d ⟨[], []⟩
    have hmiss := set_if_exists_missing_decomp feature_list w.1 w.2 row d
    have e1 : set_if_exists feature_list w.1 w.2 (row, d)
        = ((set_if_exists feature_list w.1 w.2 (row, d)).1,
           (set_if_exists feature_list w.1 w.2 (row, d)).2) := rfl
    have e2 : set_if_exists feature_list w.1 w.2 (row, ⟨[], []⟩)
        = ((set_if_exists feature_list w.1 w.2 (row, ⟨[], []⟩)).1,
           (set_if_exists feature_list w.1 w.2 (row, ⟨[], []⟩)).2) := rfl
    rw [e1, e2, hrow]
    obtain ⟨ih1, ih2⟩ := foldl_diag_indep feature_list ws
      (set_if_exists feature_list w.1 w.2 (row, ⟨[], []⟩)).1
      (set_if_exists feature_list w.1 w.2 (row, d)).2
    obtain ⟨ih1', ih2'⟩ := foldl_diag_indep feature_list ws
      (set_if_exists feature_list w.1 w.2 (row, ⟨[], []⟩)).1
      (set_if_exists feature_list w.1 w.2 (row, ⟨[], []⟩)).2
    refine ⟨by rw [ih1, ih1'], ?_⟩
    rw [ih2, ih2', hmiss, List.append_assoc]

/-- C9: the encoded row does not depend on previously accumulated
diagnostics; the missing-column diagnostics of a run are appended to
whatever was accumulated before; and a session maps each submission to
the result of processing it alone against the cached artifacts, so no
submission's outcome depends on the submissions processed before it. -/
theorem submissions_isolated (predict : Row → Int)
    (feature_list : List String) (inp : Inputs) (d : Diag)
    (pre post : List Inputs) :
    (make_input_row inp feature_list d).1
      = (make_input_row inp feature_list ⟨[], []⟩).1 ∧
    (make_input_row inp feature_list d).2.missing
      = d.missing ++ (make_input_row inp feature_list ⟨[], []⟩).2.missing ∧
    run_session predict feature_list (pre ++ post)
      = run_session predict feature_list pre
        ++ run_session predict feature_list post := by
  obtain ⟨h1, h2⟩ := foldl_diag_indep feature_list (writeList inp)
    (empty_row feature_list) d
  refine ⟨?_, ?_, ?_⟩
  · simp only [make_input_row]
    rw [h1]
  · simp only [make_input_row]
    rw [h2]
  · unfold run_session
    exact List.map_append _ pre post

/-! ### Locating writes in the write list -/

theorem lastWrite_nil (n : String) : lastWrite [] n = none := rfl

theorem lastWrite_append (a b : List (String × Int)) (n : String) :
    lastWrite (a ++ b) n = (lastWrite b n).or (lastWrite a n) := by
  unfold lastWrite
  rw [List.reverse_append, List.find?_append]
  cases h : b.reverse.find? (fun p => normalizeStr p.1 == n) <;> simp [h]

/-! ### The exam-state write never collides with other columns

The only logical column name containing user input is
`"SG_UF_PROVA_" + uf`: its normalized form always starts with
`sg_uf_prova`, while every other logical name of `make_input_row`
normalizes to a token that does not. -/

theorem foldChars_append : ∀ a b : List Char,
    foldChars (a ++ b) = foldChars a ++ foldChars b
  | [], _ => rfl
  | c :: cs, b => by
    rw [List.cons_append, foldChars, foldChars, foldChars_append cs b,
      List.append_assoc]

theorem isPre_append : ∀ p t : List Char, p.isPrefixOf (p ++ t) = true
  | [], _ => by simp [List.isPrefixOf]
  | c :: p, t => by simp [List.isPrefixOf, isPre_append p t]

theorem collapse_uf (R : List Char) :
    collapseAux false ("sg_uf_prova_".data ++ R)
      = "sg_uf_prova".data ++ ('_' :: collapseAux true R) := by
  show collapseAux false
      (['s', 'g', '_', 'u', 'f', '_', 'p', 'r', 'o', 'v', 'a', '_'] ++ R)
    = ['s', 'g', '_', 'u', 'f', '_', 'p', 'r', 'o', 'v', 'a']
      ++ ('_' :: collapseAux true R)
  simp [collapseAux]

theorem normalizeStr_uf_pre (x : String) :
    "sg_uf_prova".data.isPrefixOf
      (normalizeStr ("SG_UF_PROVA_" ++ x)).data = true := by
  have hdata : (normalizeStr ("SG_UF_PROVA_" ++ x)).data
      = stripU (collapseAux false
          ((((foldChars ("SG_UF_PROVA_".data ++ x.data)).map pyLower).map
            toUnderscore))) := by
    rw [show (normalizeStr ("SG_UF_PROVA_" ++ x)).data
        = stripU (collapseAux false
            (((foldChars ("SG_UF_PROVA_" ++ x).data).map pyLower).map
              toUnderscore)) from rfl, String.data_append]
  rw [hdata, foldChars_append,
    show foldChars "SG_UF_PROVA_".data = "SG_UF_PROVA_".data from by decide,
    List.map_append, List.map_append,
    show ("SG_UF_PROVA_".data.map pyLower).map toUnderscore
      = "sg_uf_prova_".data from by decide, collapse_uf]
  set R := collapseAux true ((foldChars x.data).map pyLower |>.map toUnderscore)
    with hR
  unfold stripU
  have hh : ("sg_uf_prova".data ++ ('_' :: R)).head? ≠ some '_' := by
    rw [show "sg_uf_prova".data = 's' :: "g_uf_prova".data from by decide,
      List.cons_append, List.head?_cons]
    exact fun hcon => absurd (Option.some.inj hcon) (by decide)
  rw [dropWhileU_id hh]
  unfold dropTrailingU
  rw [List.reverse_append, List.dropWhile_append]
  by_cases hemp : (List.dropWhile (fun c => c == '_')
      ('_' :: R).reverse).isEmpty = true
  · rw [if_pos hemp,
      show List.dropWhile (fun c => c == '_') "sg_uf_prova".data.reverse
        = "sg_uf_prova".data.reverse from by decide, List.reverse_reverse]
    simpa using isPre_append "sg_uf_prova".data []
  · rw [if_neg hemp, List.reverse_append, List.reverse_reverse]
    exact isPre_append _ _

/-- A normalized token without the `sg_uf_prova` prefix is never the
normalization of a `SG_UF_PROVA_` write, whatever the user typed. -/
theorem uf_write_ne (tok : String)
    (h : "sg_uf_prova".data.isPrefixOf tok.data = false) (x : String) :
    (normalizeStr ("SG_UF_PROVA_" ++ x) = tok) = False := by
  simp only [eq_iff_iff, iff_false]
  intro heq
  have hp := normalizeStr_uf_pre x
  rw [heq, h] at hp
  cases hp

/-- Normalization is injective on the `SG_UF_PROVA_` columns of the 27
federation units. -/
theorem uf_norm_inj : ∀ u ∈ UF_LIST, ∀ w ∈ UF_LIST,
    normalizeStr ("SG_UF_PROVA_" ++ u) = normalizeStr ("SG_UF_PROVA_" ++ w)
      → u = w := by decide

/-- `lastWrite` after normalizing the logical names once. -/
def lastWriteTok (ws : List (String × Int)) (n : String) : Option Int :=
  (ws.reverse.find? (fun p => p.1 == n)).map (fun p => p.2)

theorem find?_norm (l : List (String × Int)) (n : String) :
    Option.map (fun p => p.2) (l.find? (fun p => normalizeStr p.1 == n))
      = Option.map (fun p => p.2)
          ((l.map (fun p => (normalizeStr p.1, p.2))).find?
            (fun p => p.1 == n)) := by
  induction l with
  | nil => rfl
  | cons a t ih =>
    by_cases ha : (normalizeStr a.1 == n) = true
    · simp [List.find?, ha]
    · have ha' : (normalizeStr a.1 == n) = false := by
        cases hb : (normalizeStr a.1 == n)
        · rfl
        · exact absurd hb ha
      simp only [List.find?, List.map_cons, ha']
      exact ih

theorem lastWrite_eq_tok (ws : List (String × Int)) (n : String) :
    lastWrite ws n
      = lastWriteTok (ws.map (fun p => (normalizeStr p.1, p.2))) n := by
  unfold lastWrite lastWriteTok
  rw [← List.map_reverse]
  exact find?_norm ws.reverse n

theorem lastWriteTok_nil (n : String) : lastWriteTok [] n = none := rfl

theorem lastWriteTok_cons (w : String × Int) (ws : List (String × Int))
    (n : String) :
    lastWriteTok (w :: ws) n
      = (lastWriteTok ws n).or (if w.1 = n then some w.2 else none) := by
  unfold lastWriteTok
  rw [List.reverse_cons, List.find?_append]
  cases h : ws.reverse.find? (fun p => p.1 == n) with
  | some e => simp
  | none =>
    by_cases hw : w.1 = n
    · have hw' : (w.1 == n) = true := by simpa using hw
      simp [List.find?, hw', hw]
    · have hw' : (w.1 == n) = false := by simpa using hw
      simp [List.find?, hw', hw]

/-- The write list with every fixed logical name replaced by its
normalized token; only the exam-state entry keeps a symbolic name. -/
def writeTokens (inp : Inputs) : List (String × Int) :=
  [("tp_faixa_etaria", inp.TP_FAIXA_ETARIA),
   ("qtd_residentes", inp.Qtd_Residentes),
   ("renda_familiar_ord", inp.Renda_Familiar_ord),
   ("instrucao_do_pai_ord", inp.Instrucao_pai_ord),
   ("instrucao_da_mae_ord", inp.Instrucao_mae_ord),
   ("profissao_do_pai_ord", inp.Prof_pai_ord),
   ("profissao_da_mae_ord", inp.Prof_mae_ord),
   ("instrucao_do_pai_nao_sei", inp.Instrucao_pai_ns),
   ("instrucao_da_mae_nao_sei", inp.Instrucao_mae_ns),
   ("profissao_do_pai_nao_sei", inp.Prof_pai_ns),
   ("profissao_da_mae_nao_sei", inp.Prof_mae_ns),
   ("tp_sexo_f", if inp.TP_SEXO = "F" then 1 else 0),
   ("tp_sexo_m", if inp.TP_SEXO = "M" then 1 else 0),
   ("tp_estado_civil_0_0", if inp.TP_ESTADO_CIVIL = "0.0" then 1 else 0),
   ("tp_estado_civil_1_0", if inp.TP_ESTADO_CIVIL = "1.0" then 1 else 0),
   ("tp_estado_civil_2_0", if inp.TP_ESTADO_CIVIL = "2.0" then 1 else 0),
   ("tp_estado_civil_3_0", if inp.TP_ESTADO_CIVIL = "3.0" then 1 else 0),
   ("tp_estado_civil_4_0", if inp.TP_ESTADO_CIVIL = "4.0" then 1 else 0),
   ("tp_cor_raca_0", if inp.TP_COR_RACA = "0" then 1 else 0),
   ("tp_cor_raca_1", if inp.TP_COR_RACA = "1" then 1 else 0),
   ("tp_cor_raca_2", if inp.TP_COR_RACA = "2" then 1 else 0),
   ("tp_cor_raca_3", if inp.TP_COR_RACA = "3" then 1 else 0),
   ("tp_cor_raca_4", if inp.TP_COR_RACA = "4" then 1 else 0),
   ("tp_cor_raca_5", if inp.TP_COR_RACA = "5" then 1 else 0),
   ("tp_cor_raca_6", if inp.TP_COR_RACA = "6" then 1 else 0),
   ("tp_nacionalidade_0", if inp.TP_NACIONALIDADE = "0" then 1 else 0),
   ("tp_nacionalidade_1", if inp.TP_NACIONALIDADE = "1" then 1 else 0),
   ("tp_nacionalidade_2", if inp.TP_NACIONALIDADE = "2" then 1 else 0),
   ("tp_nacionalidade_3", if inp.TP_NACIONALIDADE = "3" then 1 else 0),
   ("tp_nacionalidade_4", if inp.TP_NACIONALIDADE = "4" then 1 else 0),
   ("tp_st_conclusao_1", if inp.TP_ST_CONCLUSAO = "1" then 1 else 0),
   ("tp_st_conclusao_2", if inp.TP_ST_CONCLUSAO = "2" then 1 else 0),
   ("tp_st_conclusao_4", if inp.TP_ST_CONCLUSAO = "4" then 1 else 0),
   ("tp_escola_1", if inp.TP_ESCOLA = "1" then 1 else 0),
   ("tp_escola_2", if inp.TP_ESCOLA = "2" then 1 else 0),
   ("tp_escola_3", if inp.TP_ESCOLA = "3" then 1 else 0),
   (normalizeStr ("SG_UF_PROVA_" ++ inp.UF), 1),
   ("tp_lingua_0", if inp.TP_LINGUA = "0" then 1 else 0),
   ("tp_lingua_1", if inp.TP_LINGUA = "1" then 1 else 0),
   ("acesso_a_internet_a", inp.Internet_A),
   ("acesso_a_internet_b", inp.Internet_B)]

theorem writeList_tokens (inp : Inputs) :
    (writeList inp).map (fun p => (normalizeStr p.1, p.2))
      = writeTokens inp := by
  simp only [writeList, writeTokens, List.map_append, List.map_cons,
    List.map_nil, List.cons_append, List.nil_append,
    show normalizeStr "TP_FAIXA_ETARIA" = "tp_faixa_etaria" from by decide,
    show normalizeStr "Qtd Residentes" = "qtd_residentes" from by decide,
    show normalizeStr "Renda Familiar_ord" = "renda_familiar_ord" from by decide,
    show normalizeStr "Instrução do pai_ord" = "instrucao_do_pai_ord" from by decide,
    show normalizeStr "Instrução da mãe_ord" = "instrucao_da_mae_ord" from by decide,
    show normalizeStr "Profissão do pai_ord" = "profissao_do_pai_ord" from by decide,
    show normalizeStr "Profissão da mãe_ord" = "profissao_da_mae_ord" from by decide,
    show normalizeStr "Instrução do pai_nao_sei" = "instrucao_do_pai_nao_sei" from by decide,
    show normalizeStr "Instrução da mãe_nao_sei" = "instrucao_da_mae_nao_sei" from by decide,
    show normalizeStr "Profissão do pai_nao_sei" = "profissao_do_pai_nao_sei" from by decide,
    show normalizeStr "Profissão da mãe_nao_sei" = "profissao_da_mae_nao_sei" from by decide,
    show normalizeStr ("TP_SEXO_" ++ "F") = "tp_sexo_f" from by decide,
    show normalizeStr ("TP_SEXO_" ++ "M") = "tp_sexo_m" from by decide,
    show normalizeStr ("TP_ESTADO_CIVIL_" ++ "0.0") = "tp_estado_civil_0_0" from by decide,
    show normalizeStr ("TP_ESTADO_CIVIL_" ++ "1.0") = "tp_estado_civil_1_0" from by decide,
    show normalizeStr ("TP_ESTADO_CIVIL_" ++ "2.0") = "tp_estado_civil_2_0" from by decide,
    show normalizeStr ("TP_ESTADO_CIVIL_" ++ "3.0") = "tp_estado_civil_3_0" from by decide,
    show normalizeStr ("TP_ESTADO_CIVIL_" ++ "4.0") = "tp_estado_civil_4_0" from by decide,
    show normalizeStr ("TP_COR_RACA_" ++ "0") = "tp_cor_raca_0" from by decide,
    show normalizeStr ("TP_COR_RACA_" ++ "1") = "tp_cor_raca_1" from by decide,
    show normalizeStr ("TP_COR_RACA_" ++ "2") = "tp_cor_raca_2" from by decide,
    show normalizeStr ("TP_COR_RACA_" ++ "3") = "tp_cor_raca_3" from by decide,
    show normalizeStr ("TP_COR_RACA_" ++ "4") = "tp_cor_raca_4" from by decide,
    show normalizeStr ("TP_COR_RACA_" ++ "5") = "tp_cor_raca_5" from by decide,
    show normalizeStr ("TP_COR_RACA_" ++ "6") = "tp_cor_raca_6" from by decide,
    show normalizeStr ("TP_NACIONALIDADE_" ++ "0") = "tp_nacionalidade_0" from by decide,
    show normalizeStr ("TP_NACIONALIDADE_" ++ "1") = "tp_nacionalidade_1" from by decide,
    show normalizeStr ("TP_NACIONALIDADE_" ++ "2") = "tp_nacionalidade_2" from by decide,
    show normalizeStr ("TP_NACIONALIDADE_" ++ "3") = "tp_nacionalidade_3" from by decide,
    show normalizeStr ("TP_NACIONALIDADE_" ++ "4") = "tp_nacionalidade_4" from by decide,
    show normalizeStr ("TP_ST_CONCLUSAO_" ++ "1") = "tp_st_conclusao_1" from by decide,
    show normalizeStr ("TP_ST_CONCLUSAO_" ++ "2") = "tp_st_conclusao_2" from by decide,
    show normalizeStr ("TP_ST_CONCLUSAO_" ++ "4") = "tp_st_conclusao_4" from by decide,
    show normalizeStr ("TP_ESCOLA_" ++ "1") = "tp_escola_1" from by decide,
    show normalizeStr ("TP_ESCOLA_" ++ "2") = "tp_escola_2" from by decide,
    show normalizeStr ("TP_ESCOLA_" ++ "3") = "tp_escola_3" from by decide,
    show normalizeStr ("TP_LINGUA_" ++ "0") = "tp_lingua_0" from by decide,
    show normalizeStr ("TP_LINGUA_" ++ "1") = "tp_lingua_1" from by decide,
    show normalizeStr "Acesso à internet_A" = "acesso_a_internet_a" from by decide,
    show normalizeStr "Acesso à internet_B" = "acesso_a_internet_b" from by decide]

theorem uf_write_ne' (tok : String)
    (h : "sg_uf_prova".data.isPrefixOf tok.data = false) (x : String) :
    (tok = normalizeStr ("SG_UF_PROVA_" ++ x)) = False := by
  have h2 := uf_write_ne tok h x
  simp only [eq_iff_iff, iff_false] at h2 ⊢
  exact fun heq => h2 heq.symm

theorem uf_cond (u k : String) (hu : u ∈ UF_LIST) (hk : k ∈ UF_LIST) :
    (normalizeStr ("SG_UF_PROVA_" ++ u) = normalizeStr ("SG_UF_PROVA_" ++ k))
      = (u = k) := by
  simp only [eq_iff_iff]
  exact ⟨fun h => uf_norm_inj u hu k hk h, fun h => by rw [h]⟩

/-! ### The one-hot encoded categorical fields -/

/-- The categorical fields expanded into indicator columns by
`make_input_row`. -/
inductive CatField where
  | sexo
  | estado_civil
  | cor_raca
  | nacionalidade
  | st_conclusao
  | escola
  | uf
  | lingua
deriving DecidableEq

/-- The category set of each field, as written in `make_input_row`. -/
def CatField.cats : CatField → List String
  | .sexo => ["F", "M"]
  | .estado_civil => ["0.0", "1.0", "2.0", "3.0", "4.0"]
  | .cor_raca => ["0", "1", "2", "3", "4", "5", "6"]
  | .nacionalidade => ["0", "1", "2", "3", "4"]
  | .st_conclusao => ["1", "2", "4"]
  | .escola => ["1", "2", "3"]
  | .uf => UF_LIST
  | .lingua => ["0", "1"]

/-- The indicator column written for category `k` of each field. -/
def CatField.colName : CatField → String → String
  | .sexo, k => "TP_SEXO_" ++ k
  | .estado_civil, k => "TP_ESTADO_CIVIL_" ++ k
  | .cor_raca, k => "TP_COR_RACA_" ++ k
  | .nacionalidade, k => "TP_NACIONALIDADE_" ++ k
  | .st_conclusao, k => "TP_ST_CONCLUSAO_" ++ k
  | .escola, k => "TP_ESCOLA_" ++ k
  | .uf, k => "SG_UF_PROVA_" ++ k
  | .lingua, k => "TP_LINGUA_" ++ k

/-- The submitted answer for each field. -/
def CatField.ans : CatField → Inputs → String
  | .sexo, inp => inp.TP_SEXO
  | .estado_civil, inp => inp.TP_ESTADO_CIVIL
  | .cor_raca, inp => inp.TP_COR_RACA
  | .nacionalidade, inp => inp.TP_NACIONALIDADE
  | .st_conclusao, inp => inp.TP_ST_CONCLUSAO
  | .escola, inp => inp.TP_ESCOLA
  | .uf, inp => inp.UF
  | .lingua, inp => inp.TP_LINGUA

/-- C5: for every categorical field, under the injectivity invariant and
an answer from the field's category set, each indicator column of the
field that is present in the schema carries 1 exactly when it is the
selected category's column and 0 otherwise, and an absent indicator
column simply does not occur in the row at all. -/
theorem one_hot_encoding (feature_list : List String)
    (hinj : normInjOn feature_list) (inp : Inputs) (d : Diag) (f : CatField)
    (hans : f.ans inp ∈ f.cats) (k : String) (hk : k ∈ f.cats) :
    (f.colName k ∈ feature_list →
      rowGet (make_input_row inp feature_list d).1 (f.colName k)
        = if k = f.ans inp then 1 else 0) ∧
    (f.colName k ∉ feature_list →
      f.colName k ∉ rowCols (make_input_row inp feature_list d).1) := by
  refine ⟨fun hmem => ?_, fun hmem => by
    rw [rowCols_make_input_row]; exact hmem⟩
  rw [rowGet_make_input_row hinj hmem inp d, lastWrite_eq_tok,
    writeList_tokens]
  cases f with
  | sexo =>
    fin_cases hk
    · rw [show normalizeStr (CatField.colName CatField.sexo "F")
            = "tp_sexo_f" from by decide]
      have hufne := uf_write_ne "tp_sexo_f" (by decide) inp.UF
      simp only [CatField.ans]
      simp [writeTokens, lastWriteTok_cons, lastWriteTok_nil, hufne]
      by_cases h : inp.TP_SEXO = "F"
      · simp [h]
      · simp [h, Ne.symm h]
    · rw [show normalizeStr (CatField.colName CatField.sexo "M")
            = "tp_sexo_m" from by decide]
      have hufne := uf_write_ne "tp_sexo_m" (by decide) inp.UF
      simp only [CatField.ans]
      simp [writeTokens, lastWriteTok_cons, lastWriteTok_nil, hufne]
      by_cases h : inp.TP_SEXO = "M"
      · simp [h]
      · simp [h, Ne.symm h]
  | estado_civil =>
    fin_cases hk
    · rw [show normalizeStr (CatField.colName CatField.estado_civil "0.0")
            = "tp_estado_civil_0_0" from by decide]
      have hufne := uf_write_ne "tp_estado_civil_0_0" (by decide) inp.UF
      simp only [CatField.ans]
      simp [writeTokens, lastWriteTok_cons, lastWriteTok_nil, hufne]
      by_cases h : inp.TP_ESTADO_CIVIL = "0.0"
      · simp [h]
      · simp [h, Ne.symm h]
    · rw [show normalizeStr (CatField.colName CatField.estado_civil "1.0")
            = "tp_estado_civil_1_0" from by decide]
      have hufne := uf_write_ne "tp_estado_civil_1_0" (by decide) inp.UF
      simp only [CatField.ans]
      simp [writeTokens, lastWriteTok_cons, lastWriteTok_nil, hufne]
      by_cases h : inp.TP_ESTADO_CIVIL = "1.0"
      · simp [h]
      · simp [h, Ne.symm h]
    · rw [show normalizeStr (CatField.colName CatField.estado_civil "2.0")
            = "tp_estado_civil_2_0" from by decide]
      have hufne := uf_write_ne "tp_estado_civil_2_0" (by decide) inp.UF
      simp only [CatField.ans]
      simp [writeTokens, lastWriteTok_cons, lastWriteTok_nil, hufne]
      by_cases h : inp.TP_ESTADO_CIVIL = "2.0"
      · simp [h]
      · simp [h, Ne.symm h]
    · rw [show normalizeStr (CatField.colName CatField.estado_civil "3.0")
            = "tp_estado_civil_3_0" from by decide]
      have hufne := uf_write_ne "tp_estado_civil_3_0" (by decide) inp.UF
      simp only [CatField.ans]
      simp [writeTokens, lastWriteTok_cons, lastWriteTok_nil, hufne]
      by_cases h : inp.TP_ESTADO_CIVIL = "3.0"
      · simp [h]
      · simp [h, Ne.symm h]
    · rw [show normalizeStr (CatField.colName CatField.estado_civil "4.0")
            = "tp_estado_civil_4_0" from by decide]
      have hufne := uf_write_ne "tp_estado_civil_4_0" (by decide) inp.UF
      simp only [CatField.ans]
      simp [writeTokens, lastWriteTok_cons, lastWriteTok_nil, hufne]
      by_cases h : inp.TP_ESTADO_CIVIL = "4.0"
      · simp [h]
      · simp [h, Ne.symm h]
  | cor_raca =>
    fin_cases hk
    · rw [show normalizeStr (CatField.colName CatField.cor_raca "0")
            = "tp_cor_raca_0" from by decide]
      have hufne := uf_write_ne "tp_cor_raca_0" (by decide) inp.UF
      simp only [CatField.ans]
      simp [writeTokens, lastWriteTok_cons, lastWriteTok_nil, hufne]
      by_cases h : inp.TP_COR_RACA = "0"
      · simp [h]
      · simp [h, Ne.symm h]
    · rw [show normalizeStr (CatField.colName CatField.cor_raca "1")
            = "tp_cor_raca_1" from by decide]
      have hufne := uf_write_ne "tp_cor_raca_1" (by decide) inp.UF
      simp only [CatField.ans]
      simp [writeTokens, lastWriteTok_cons, lastWriteTok_nil, hufne]
      by_cases h : inp.TP_COR_RACA = "1"
      · simp [h]
      · simp [h, Ne.symm h]
    · rw [show normalizeStr (CatField.colName CatField.cor_raca "2")
            = "tp_cor_raca_2" from by decide]
      have hufne := uf_write_ne "tp_cor_raca_2" (by decide) inp.UF
      simp only [CatField.ans]
      simp [writeTokens, lastWriteTok_cons, lastWriteTok_nil, hufne]
      by_cases h : inp.TP_COR_RACA = "2"
      · simp [h]
      · simp [h, Ne.symm h]
    · rw [show normalizeStr (CatField.colName CatField.cor_raca "3")
            = "tp_cor_raca_3" from by decide]
      have hufne := uf_write_ne "tp_cor_raca_3" (by decide) inp.UF
      simp only [CatField.ans]
      simp [writeTokens, lastWriteTok_cons, lastWriteTok_nil, hufne]
      by_cases h : inp.TP_COR_RACA = "3"
      · simp [h]
      · simp [h, Ne.symm h]
    · rw [show normalizeStr (CatField.colName CatField.cor_raca "4")
            = "tp_cor_raca_4" from by decide]
      have hufne := uf_write_ne "tp_cor_raca_4" (by decide) inp.UF
      simp only [CatField.ans]
      simp [writeTokens, lastWriteTok_cons, lastWriteTok_nil, hufne]
      by_cases h : inp.TP_COR_RACA = "4"
      · simp [h]
      · simp [h, Ne.symm h]
    · rw [show normalizeStr (CatField.colName CatField.cor_raca "5")
            = "tp_cor_raca_5" from by decide]
      have hufne := uf_write_ne "tp_cor_raca_5" (by decide) inp.UF
      simp only [CatField.ans]
      simp [writeTokens, lastWriteTok_cons, lastWriteTok_nil, hufne]
      by_cases h : inp.TP_COR_RACA = "5"
      · simp [h]
      · simp [h, Ne.symm h]
    · rw [show normalizeStr (CatField.colName CatField.cor_raca "6")
            = "tp_cor_raca_6" from by decide]
      have hufne := uf_write_ne "tp_cor_raca_6" (by decide) inp.UF
      simp only [CatField.ans]
      simp [writeTokens, lastWriteTok_cons, lastWriteTok_nil, hufne]
      by_cases h : inp.TP_COR_RACA = "6"
      · simp [h]
      · simp [h, Ne.symm h]
  | nacionalidade =>
    fin_cases hk
    · rw [show normalizeStr (CatField.colName CatField.nacionalidade "0")
            = "tp_nacionalidade_0" from by decide]
      have hufne := uf_write_ne "tp_nacionalidade_0" (by decide) inp.UF
      simp only [CatField.ans]
      simp [writeTokens, lastWriteTok_cons, lastWriteTok_nil, hufne]
      by_cases h : inp.TP_NACIONALIDADE = "0"
      · simp [h]
      · simp [h, Ne.symm h]
    · rw [show normalizeStr (CatField.colName CatField.nacionalidade "1")
            = "tp_nacionalidade_1" from by decide]
      have hufne := uf_write_ne "tp_nacionalidade_1" (by decide) inp.UF
      simp only [CatField.ans]
      simp [writeTokens, lastWriteTok_cons, lastWriteTok_nil, hufne]
      by_cases h : inp.TP_NACIONALIDADE = "1"
      · simp [h]
      · simp [h, Ne.symm h]
    · rw [show normalizeStr (CatField.colName CatField.nacionalidade "2")
            = "tp_nacionalidade_2" from by decide]
      have hufne := uf_write_ne "tp_nacionalidade_2" (by decide) inp.UF
      simp only [CatField.ans]
      simp [writeTokens, lastWriteTok_cons, lastWriteTok_nil, hufne]
      by_cases h : inp.TP_NACIONALIDADE = "2"
      · simp [h]
      · simp [h, Ne.symm h]
    · rw [show normalizeStr (CatField.colName CatField.nacionalidade "3")
            = "tp_nacionalidade_3" from by decide]
      have hufne := uf_write_ne "tp_nacionalidade_3" (by decide) inp.UF
      simp only [CatField.ans]
      simp [writeTokens, lastWriteTok_cons, lastWriteTok_nil, hufne]
      by_cases h : inp.TP_NACIONALIDADE = "3"
      · simp [h]
      · simp [h, Ne.symm h]
    · rw [show normalizeStr (CatField.colName CatField.nacionalidade "4")
            = "tp_nacionalidade_4" from by decide]
      have hufne := uf_write_ne "tp_nacionalidade_4" (by decide) inp.UF
      simp only [CatField.ans]
      simp [writeTokens, lastWriteTok_cons, lastWriteTok_nil, hufne]
      by_cases h : inp.TP_NACIONALIDADE = "4"
      · simp [h]
      · simp [h, Ne.symm h]
  | st_conclusao =>
    fin_cases hk
    · rw [show normalizeStr (CatField.colName CatField.st_conclusao "1")
            = "tp_st_conclusao_1" from by decide]
      have hufne := uf_write_ne "tp_st_conclusao_1" (by decide) inp.UF
      simp only [CatField.ans]
      simp [writeTokens, lastWriteTok_cons, lastWriteTok_nil, hufne]
      by_cases h : inp.TP_ST_CONCLUSAO = "1"
      · simp [h]
      · simp [h, Ne.symm h]
    · rw [show normalizeStr (CatField.colName CatField.st_conclusao "2")
            = "tp_st_conclusao_2" from by decide]
      have hufne := uf_write_ne "tp_st_conclusao_2" (by decide) inp.UF
      simp only [CatField.ans]
      simp [writeTokens, lastWriteTok_cons, lastWriteTok_nil, hufne]
      by_cases h : inp.TP_ST_CONCLUSAO = "2"
      · simp [h]
      · simp [h, Ne.symm h]
    · rw [show normalizeStr (CatField.colName CatField.st_conclusao "4")
            = "tp_st_conclusao_4" from by decide]
      have hufne := uf_write_ne "tp_st_conclusao_4" (by decide) inp.UF
      simp only [CatField.ans]
      simp [writeTokens, lastWriteTok_cons, lastWriteTok_nil, hufne]
      by_cases h : inp.TP_ST_CONCLUSAO = "4"
      · simp [h]
      · simp [h, Ne.symm h]
  | escola =>
    fin_cases hk
    · rw [show normalizeStr (CatField.colName CatField.escola "1")
            = "tp_escola_1" from by decide]
      have hufne := uf_write_ne "tp_escola_1" (by decide) inp.UF
      simp only [CatField.ans]
      simp [writeTokens, lastWriteTok_cons, lastWriteTok_nil, hufne]
      by_cases h : inp.TP_ESCOLA = "1"
      · simp [h]
      · simp [h, Ne.symm h]
    · rw [show normalizeStr (CatField.colName CatField.escola "2")
            = "tp_escola_2" from by decide]
      have hufne := uf_write_ne "tp_escola_2" (by decide) inp.UF
      simp only [CatField.ans]
      simp [writeTokens, lastWriteTok_cons, lastWriteTok_nil, hufne]
      by_cases h : inp.TP_ESCOLA = "2"
      · simp [h]
      · simp [h, Ne.symm h]
    · rw [show normalizeStr (CatField.colName CatField.escola "3")
            = "tp_escola_3" from by decide]
      have hufne := uf_write_ne "tp_escola_3" (by decide) inp.UF
      simp only [CatField.ans]
      simp [writeTokens, lastWriteTok_cons, lastWriteTok_nil, hufne]
      by_cases h : inp.TP_ESCOLA = "3"
      · simp [h]
      · simp [h, Ne.symm h]
  | lingua =>
    fin_cases hk
    · rw [show normalizeStr (CatField.colName CatField.lingua "0")
            = "tp_lingua_0" from by decide]
      have hufne := uf_write_ne "tp_lingua_0" (by decide) inp.UF
      simp only [CatField.ans]
      simp [writeTokens, lastWriteTok_cons, lastWriteTok_nil, hufne]
      by_cases h : inp.TP_LINGUA = "0"
      · simp [h]
      · simp [h, Ne.symm h]
    · rw [show normalizeStr (CatField.colName CatField.lingua "1")
            = "tp_lingua_1" from by decide]
      have hufne := uf_write_ne "tp_lingua_1" (by decide) inp.UF
      simp only [CatField.ans]
      simp [writeTokens, lastWriteTok_cons, lastWriteTok_nil, hufne]
      by_cases h : inp.TP_LINGUA = "1"
      · simp [h]
      · simp [h, Ne.symm h]
  | uf =>
    simp only [CatField.ans, CatField.cats] at hans hk
    simp only [CatField.colName]
    have hcond : (normalizeStr ("SG_UF_PROVA_" ++ inp.UF)
        = normalizeStr ("SG_UF_PROVA_" ++ k)) = (inp.UF = k) :=
      uf_cond inp.UF k hans hk
    have e00 := uf_write_ne' "tp_faixa_etaria" (by decide) k
    have e01 := uf_write_ne' "qtd_residentes" (by decide) k
    have e02 := uf_write_ne' "renda_familiar_ord" (by decide) k
    have e03 := uf_write_ne' "instrucao_do_pai_ord" (by decide) k
    have e04 := uf_write_ne' "instrucao_da_mae_ord" (by decide) k
    have e05 := uf_write_ne' "profissao_do_pai_ord" (by decide) k
    have e06 := uf_write_ne' "profissao_da_mae_ord" (by decide) k
    have e07 := uf_write_ne' "instrucao_do_pai_nao_sei" (by decide) k
    have e08 := uf_write_ne' "instrucao_da_mae_nao_sei" (by decide) k
    have e09 := uf_write_ne' "profissao_do_pai_nao_sei" (by decide) k
    have e10 := uf_write_ne' "profissao_da_mae_nao_sei" (by decide) k
    have e11 := uf_write_ne' "tp_sexo_f" (by decide) k
    have e12 := uf_write_ne' "tp_sexo_m" (by decide) k
    have e13 := uf_write_ne' "tp_estado_civil_0_0" (by decide) k
    have e14 := uf_write_ne' "tp_estado_civil_1_0" (by decide) k
    have e15 := uf_write_ne' "tp_estado_civil_2_0" (by decide) k
    have e16 := uf_write_ne' "tp_estado_civil_3_0" (by decide) k
    have e17 := uf_write_ne' "tp_estado_civil_4_0" (by decide) k
    have e18 := uf_write_ne' "tp_cor_raca_0" (by decide) k
    have e19 := uf_write_ne' "tp_cor_raca_1" (by decide) k
    have e20 := uf_write_ne' "tp_cor_raca_2" (by decide) k
    have e21 := uf_write_ne' "tp_cor_raca_3" (by decide) k
    have e22 := uf_write_ne' "tp_cor_raca_4" (by decide) k
    have e23 := uf_write_ne' "tp_cor_raca_5" (by decide) k
    have e24 := uf_write_ne' "tp_cor_raca_6" (by decide) k
    have e25 := uf_write_ne' "tp_nacionalidade_0" (by decide) k
    have e26 := uf_write_ne' "tp_nacionalidade_1" (by decide) k
    have e27 := uf_write_ne' "tp_nacionalidade_2" (by decide) k
    have e28 := uf_write_ne' "tp_nacionalidade_3" (by decide) k
    have e29 := uf_write_ne' "tp_nacionalidade_4" (by decide) k
    have e30 := uf_write_ne' "tp_st_conclusao_1" (by decide) k
    have e31 := uf_write_ne' "tp_st_conclusao_2" (by decide) k
    have e32 := uf_write_ne' "tp_st_conclusao_4" (by decide) k
    have e33 := uf_write_ne' "tp_escola_1" (by decide) k
    have e34 := uf_write_ne' "tp_escola_2" (by decide) k
    have e35 := uf_write_ne' "tp_escola_3" (by decide) k
    have e36 := uf_write_ne' "tp_lingua_0" (by decide) k
    have e37 := uf_write_ne' "tp_lingua_1" (by decide) k
    have e38 := uf_write_ne' "acesso_a_internet_a" (by decide) k
    have e39 := uf_write_ne' "acesso_a_internet_b" (by decide) k
    simp only [CatField.ans]
    simp [writeTokens, lastWriteTok_cons, lastWriteTok_nil, hcond,
      e00, e01, e02, e03, e04, e05, e06, e07, e08, e09, e10, e11, e12, e13, e14, e15, e16, e17, e18, e19, e20, e21, e22, e23, e24, e25, e26, e27, e28, e29, e30, e31, e32, e33, e34, e35, e36, e37, e38, e39]
    by_cases h : inp.UF = k
    · simp [h]
    · simp [h, Ne.symm h]


/-- A concrete submission used to instantiate the encoder theorems. -/
def sampleInputs : Inputs :=
  { TP_FAIXA_ETARIA := 2, Qtd_Residentes := 3, Renda_Familiar_ord := 6,
    TP_SEXO := "F", TP_ESCOLA := "2", UF := "SP", TP_LINGUA := "0",
    TP_ESTADO_CIVIL := "0.0", TP_COR_RACA := "3", TP_NACIONALIDADE := "1",
    TP_ST_CONCLUSAO := "2", Instrucao_pai_ord := 0, Instrucao_mae_ord := 5,
    Prof_pai_ord := 0, Prof_mae_ord := 2, Instrucao_pai_ns := 1,
    Instrucao_mae_ns := 0, Prof_pai_ns := 1, Prof_mae_ns := 0,
    Internet_A := 1, Internet_B := 0 }

/-- Witness for C5 at the sex field of a concrete two-column schema. -/
theorem one_hot_encoding_witness :
    normInjOn ["TP_SEXO_F", "TP_SEXO_M"] ∧
    CatField.ans CatField.sexo sampleInputs ∈ CatField.cats CatField.sexo ∧
    "F" ∈ CatField.cats CatField.sexo ∧
    ((CatField.colName CatField.sexo "F" ∈ ["TP_SEXO_F", "TP_SEXO_M"] →
        rowGet (make_input_row sampleInputs ["TP_SEXO_F", "TP_SEXO_M"]
            ⟨[], []⟩).1 (CatField.colName CatField.sexo "F")
          = if "F" = CatField.ans CatField.sexo sampleInputs then 1 else 0) ∧
      (CatField.colName CatField.sexo "F" ∉ ["TP_SEXO_F", "TP_SEXO_M"] →
        CatField.colName CatField.sexo "F"
          ∉ rowCols (make_input_row sampleInputs ["TP_SEXO_F", "TP_SEXO_M"]
              ⟨[], []⟩).1)) :=
  ⟨by decide, by decide, by decide,
    one_hot_encoding ["TP_SEXO_F", "TP_SEXO_M"] (by decide) sampleInputs
      ⟨[], []⟩ CatField.sexo (by decide) "F" (by decide)⟩

end Enem

